import Mathlib

set_option maxHeartbeats 1000000
set_option autoImplicit false
set_option linter.unusedVariables false

/-!
Shallow embedding of the Go rules engine in `pgx/_src/games/go.py`.

Modelling conventions:
* `jnp.int32` quantities are modelled as unbounded `Int`; every quantity
  arising on the board sizes exercised here stays far below `2^31`.
* jnp array indexing (wrap-around for a negative index such as `-1`,
  clamping of out-of-range indices under jit) is modelled by `clampIdx`,
  `aget`, `bset`, `lset`, `capAdd`.
* `float32` komi/score arithmetic is modelled by exact rationals: every
  value involved (integer stone counts, a komi of the form k + 1/2) is
  exactly representable in float32, so the comparison is exact.
* `jax.lax.fori_loop (0, 4, body)` is modelled as a left fold over
  `List.range 4`; `jax.lax.while_loop` in `_count_ji` is modelled with a
  fuel bound of `board.length + 1` (each iteration that continues flips at
  least one cell from 0 to -1, so the fixpoint is reached within the fuel).
-/

/-- Index clamping as performed by jitted jnp indexing: a negative index
wraps from the end, and the result is clamped into `[0, len)`. -/
def clampIdx (len : Nat) (i : Int) : Nat :=
  ((if i < 0 then (len : Int) + i else i).toNat).min (len - 1)

/-- `l[i]` with jnp index semantics (see `clampIdx`). -/
def aget (l : List Int) (i : Int) : Int := l.getD (clampIdx l.length i) 0

/-- `l.at[i].set v` with jnp index semantics, on a boolean array. -/
def bset (l : List Bool) (i : Int) (v : Bool) : List Bool :=
  l.set (clampIdx l.length i) v

/-- `l.at[i].set v` with jnp index semantics, on an integer array. -/
def lset (l : List Int) (i : Nat) (v : Int) : List Int :=
  l.set (min i (l.length - 1)) v

/-- `l.at[i].add v` with jnp index semantics. -/
def capAdd (l : List Int) (i : Nat) (v : Int) : List Int :=
  let j := min i (l.length - 1)
  l.set j (l.getD j 0 + v)

/-- `GameState` of go.py: `color` to move (0 = black, 1 = white),
`chain_id_board` (positive chain ids for black, negative for white, zero for
empty; the magnitude is 1 + the index of the representative stone of the chain),
`board_history` ring of trit snapshots, capture counts `[black, white]`,
consecutive pass counter, ko cell (`-1` = none), superko flag. -/
structure GameState where
  color : Nat
  chain_id_board : List Int
  board_history : List (List Int)
  num_captured_stones : List Int
  consecutive_pass_count : Nat
  ko : Int
  is_psk : Bool
deriving Repr, DecidableEq

/-- `Game` construction parameters; the constructor of go.py stores them
without any validation. -/
structure Game where
  size : Nat
  komi : Rat
  history_length : Nat
deriving Repr, DecidableEq

/-- `Game(size, komi, history_length)`: the constructor merely records the
parameters (go.py lines 40-43 perform no validation whatsoever). -/
def mkGame (size : Nat) (komi : Rat) (history_length : Nat) : Game :=
  ⟨size, komi, history_length⟩

/-- `jnp.int32([1, -1])[state.color]` -/
def _my_color (s : GameState) : Int := if s.color == 0 then 1 else -1

/-- `jnp.int32([-1, 1])[state.color]` -/
def _opponent_color (s : GameState) : Int := if s.color == 0 then -1 else 1

/-- One entry of `_neighbour`: the flat index of `(x, y)` when on board,
`-1` otherwise. -/
def nbAt (x y : Int) (size : Nat) : Int :=
  if 0 ≤ x && x < (size : Int) && 0 ≤ y && y < (size : Int) then
    x * (size : Int) + y
  else -1

/-- `_neighbour(xy, size)`: the four orthogonal neighbours
(up, down, left, right), `-1` marking off-board. -/
def _neighbour (xy size : Nat) : List Int :=
  let x : Int := (xy : Int) / (size : Int)
  let y : Int := (xy : Int) % (size : Int)
  [nbAt (x - 1) y size, nbAt (x + 1) y size,
   nbAt x (y - 1) size, nbAt x (y + 1) size]

/-- Per-cell pseudo-liberty count: number of on-board empty neighbours of
`xy` (`jnp.where(on_board, is_empty[neighbors], 0).sum()` in `_count`). -/
def cellNp (board : List Int) (size : Nat) (xy : Nat) : Int :=
  ((_neighbour xy size).map
    (fun n => if n != -1 && aget board n == 0 then 1 else 0)).sum

/-- Per-cell sum of the 1-based indices of on-board empty neighbours of
`xy` (`jnp.where(on_board, idx_sum[neighbors], 0).sum()` in `_count`). -/
def cellIdxSum (board : List Int) (size : Nat) (xy : Nat) : Int :=
  ((_neighbour xy size).map
    (fun n => if n != -1 && aget board n == 0 then n + 1 else 0)).sum

/-- Per-cell sum of the squared 1-based indices of on-board empty
neighbours of `xy`. -/
def cellSqSum (board : List Int) (size : Nat) (xy : Nat) : Int :=
  ((_neighbour xy size).map
    (fun n => if n != -1 && aget board n == 0 then (n + 1) ^ 2 else 0)).sum

/-- Aggregation of a per-cell quantity over each chain id magnitude
(`jnp.where(chain_id_board == x + 1, percell, 0).sum()` in `_count`). -/
def chainAgg (board : List Int) (size : Nat) (percell : Nat → Int) : List Int :=
  (List.range (size * size)).map (fun x =>
    ((List.range (size * size)).map (fun i =>
      if (board.getD i 0).natAbs == x + 1 then percell i else 0)).sum)

/-- `_count(state, size)`: per chain index, the pseudo-liberty count, the
sum of empty-neighbour indices, and the sum of their squares. -/
def _count (board : List Int) (size : Nat) :
    List Int × List Int × List Int :=
  (chainAgg board size (cellNp board size),
   chainAgg board size (cellIdxSum board size),
   chainAgg board size (cellSqSum board size))

/-- `_ko_may_occur(state, xy, size)`: every orthogonal neighbour of `xy` is
off-board or occupied by an opponent stone. -/
def _ko_may_occur (s : GameState) (xy size : Nat) : Bool :=
  let x : Int := (xy : Int) / (size : Int)
  let y : Int := (xy : Int) % (size : Int)
  let oob : List Bool :=
    [decide (x - 1 < 0), decide ((size : Int) ≤ x + 1),
     decide (y - 1 < 0), decide ((size : Int) ≤ y + 1)]
  let oppc := _opponent_color s
  let occ : List Bool :=
    (_neighbour xy size).map (fun n => decide (aget s.chain_id_board n * oppc > 0))
  (List.zipWith (fun o p => o || p) oob occ).all (fun b => b)

/-- `_remove_stones(state, rm_chain_id, rm_stone_xy, ko_may_occur)`. -/
def _remove_stones (s : GameState) (rmChainId : Int) (rmStoneXy : Int)
    (koMayOccur : Bool) : GameState :=
  let num : Nat := s.chain_id_board.countP (fun v => v == rmChainId)
  let board := s.chain_id_board.map (fun v => if v == rmChainId then 0 else v)
  let ko := if koMayOccur && (num == 1) then rmStoneXy else s.ko
  { s with chain_id_board := board,
           num_captured_stones := capAdd s.num_captured_stones s.color (num : Int),
           ko := ko }

/-- `_set_stone(state, xy)`: place a fresh singleton chain of the mover. -/
def _set_stone (s : GameState) (xy : Nat) : GameState :=
  { s with chain_id_board :=
      s.chain_id_board.set xy (((xy : Int) + 1) * _my_color s) }

/-- `_merge_chain(state, xy, adj_xy)`: keep the smaller chain-id magnitude,
rewriting every cell carrying the larger one. -/
def _merge_chain (s : GameState) (xy : Nat) (adjXy : Int) : GameState :=
  let my := _my_color s
  let newId : Int := ((s.chain_id_board.getD xy 0).natAbs : Int)
  let adjId : Int := ((aget s.chain_id_board adjXy).natAbs : Int)
  let small := min newId adjId * my
  let large := max newId adjId * my
  { s with chain_id_board :=
      s.chain_id_board.map (fun v => if v == large then small else v) }

/-- `_merge_around_xy(i, state, xy, size)`. -/
def _merge_around_xy (i : Nat) (s : GameState) (xy size : Nat) : GameState :=
  let adjXy := (_neighbour xy size).getD i (-1)
  let isOff := adjXy == -1
  let isMyChain := aget s.chain_id_board adjXy * _my_color s > 0
  if !isOff && isMyChain then _merge_chain s xy adjXy else s

/-- `state.num_captured_stones[state.color]` with jnp index semantics. -/
def ncget (s : GameState) : Int :=
  s.num_captured_stones.getD (min s.color (s.num_captured_stones.length - 1)) 0

/-- The `i`-th neighbour of `xy` (`adj_xy[i]` in `_apply_action`). -/
def adjOf (xy size i : Nat) : Int := (_neighbour xy size).getD i (-1)

/-- `chain_id[i]` in `_apply_action`: the chain id of the `i`-th neighbour,
read from the board before any mutation. -/
def chainIdAt (s : GameState) (xy size i : Nat) : Int :=
  aget s.chain_id_board (adjOf xy size i)

/-- The atari test of go.py on the chain occupying cell `n` (shared by
`legal_action_mask` and `_apply_action`): with `cix` the chain index read
from the board, `idx_sum[cix]^2 == idx_squared_sum[cix] * num_pseudo[cix]`. -/
def inAtariAt (board : List Int) (size : Nat) (n : Int) : Bool :=
  let cnt := _count board size
  let cix : Int := ((aget board n).natAbs : Int) - 1
  (aget cnt.2.1 cix) ^ 2 == (aget cnt.2.2 cix) * (aget cnt.1 cix)

/-- The single-liberty coordinate of go.py: `idx_squared_sum // idx_sum - 1`
on the chain occupying cell `n`. -/
def singleLibertyAt (board : List Int) (size : Nat) (n : Int) : Int :=
  let cnt := _count board size
  let cix : Int := ((aget board n).natAbs : Int) - 1
  (aget cnt.2.2 cix).fdiv (aget cnt.2.1 cix) - 1

/-- `is_killed[i]` in `_apply_action`: the `i`-th neighbour is on board,
holds an opponent chain, that chain passes the atari test, and its sole
pseudo-liberty is `xy`. -/
def isKilled (s : GameState) (xy size i : Nat) : Bool :=
  adjOf xy size i != -1 && chainIdAt s xy size i * _opponent_color s > 0
    && inAtariAt s.chain_id_board size (adjOf xy size i)
    && singleLibertyAt s.chain_id_board size (adjOf xy size i) == (xy : Int)

/-- One iteration of the capture loop of `_apply_action`: remove the
`i`-th neighbour chain when `is_killed[i]` holds. -/
def removeStep (s0 : GameState) (xy size : Nat) (kmo : Bool)
    (t : GameState) (i : Nat) : GameState :=
  if isKilled s0 xy size i then
    _remove_stones t (chainIdAt s0 xy size i) (adjOf xy size i) kmo
  else t

/-- The capture loop of `_apply_action` (the `fori_loop` over the four
directions, removing each killed neighbour chain). -/
def removalPhase (s : GameState) (xy size : Nat) : GameState :=
  (List.range 4).foldl (removeStep s xy size (_ko_may_occur s xy size)) s

/-- Invariant of the capture loop: after removing the chains whose ids are
collected in `C`, the board is the original board with those chains
blanked, the capture counter of the mover has grown by the number of
blanked cells, and the ko field is `-1` unless `ko_may_occur` holds and
exactly one stone has been captured, in which case it is the cell of the
single captured stone. -/
def LoopInv (s0 : GameState) (xy size : Nat) (kmo : Bool)
    (t : GameState) (C : List Int) : Prop :=
  (∀ c ∈ C, c ≠ 0)
  ∧ t.chain_id_board = s0.chain_id_board.map (fun v => if v ∈ C then 0 else v)
  ∧ t.num_captured_stones.length = 2
  ∧ t.color = s0.color
  ∧ ncget t = ncget s0
      + (s0.chain_id_board.countP (fun v => decide (v ∈ C)) : Int)
  ∧ (kmo = false → t.ko = -1)
  ∧ (kmo = true →
      s0.chain_id_board.countP (fun v => decide (v ∈ C)) = 0 → t.ko = -1)
  ∧ (kmo = true →
      s0.chain_id_board.countP (fun v => decide (v ∈ C)) = 1 →
      ∃ i : Nat, isKilled s0 xy size i = true
        ∧ chainIdAt s0 xy size i ∈ C
        ∧ s0.chain_id_board.countP (fun v => v == chainIdAt s0 xy size i) = 1
        ∧ t.ko = adjOf xy size i)

/-- The merge loop of `_apply_action` (the `fori_loop` over the four
directions, merging the fresh stone with adjacent own chains). -/
def mergePhase (t : GameState) (xy size : Nat) : GameState :=
  (List.range 4).foldl (fun u i => _merge_around_xy i u xy size) t

/-- `_apply_action(state, action, size)`. -/
def _apply_action (s : GameState) (xy size : Nat) : GameState :=
  let s0 := { s with consecutive_pass_count := 0 }
  let before := ncget s0
  let t := mergePhase (_set_stone (removalPhase s0 xy size) xy) xy size
  if ncget t - before == 1 then t else { t with ko := -1 }

/-- `_apply_pass(state)`. -/
def _apply_pass (s : GameState) : GameState :=
  { s with consecutive_pass_count := s.consecutive_pass_count + 1 }

/-- `jnp.clip(v, -1, 1)`. -/
def clip1 (v : Int) : Int := min 1 (max (-1) v)

/-- `jnp.roll(board_history, size**2)` on the `(8, size²)` array: the last
row wraps around to the front. -/
def rollRows (l : List (List Int)) : List (List Int) :=
  match l.reverse with
  | [] => []
  | x :: xs => x :: xs.reverse

/-- `board_history.at[0].set row`. -/
def setRow0 (l : List (List Int)) (row : List Int) : List (List Int) :=
  match l with
  | [] => []
  | _ :: t => row :: t

/-- `jnp.abs(a - b).sum()`. -/
def absDiffSum (a b : List Int) : Int :=
  (List.zipWith (fun x y => ((x - y).natAbs : Int)) a b).sum

/-- `_check_PSK(state)`: after a non-pass move, the fresh snapshot
(row 0) coincides with one of the remaining history rows. -/
def _check_PSK (s : GameState) : Bool :=
  let notPassed := s.consecutive_pass_count == 0
  let h0 := s.board_history.headD []
  notPassed && (s.board_history.tail.any (fun r => absDiffSum h0 r == 0))

/-- `Game.init()`: empty board; note the 8-row history is hard-coded in
go.py line 48 independently of `history_length`. -/
def Game.init (g : Game) : GameState :=
  { color := 0
    chain_id_board := List.replicate (g.size * g.size) 0
    board_history := List.replicate 8 (List.replicate (g.size * g.size) 2)
    num_captured_stones := [0, 0]
    consecutive_pass_count := 0
    ko := -1
    is_psk := false }

/-- `Game.step(state, action)`. -/
def Game.step (g : Game) (s : GameState) (action : Nat) : GameState :=
  let s := { s with ko := -1 }
  let s := if action < g.size * g.size then _apply_action s action g.size
           else _apply_pass s
  let s := { s with color := (s.color + 1) % 2 }
  let bh := setRow0 (rollRows s.board_history) (s.chain_id_board.map clip1)
  let s := { s with board_history := bh }
  { s with is_psk := _check_PSK s }

/-- One cell of the legal mask: the cell is empty, and some on-board
neighbour is empty, or kills an opponent chain (atari test true), or
belongs to a mover chain not in atari. -/
def legalMaskCell (s : GameState) (size : Nat) (xy : Nat) : Bool :=
  let board := s.chain_id_board
  let ns := _neighbour xy size
  (aget board (Int.ofNat xy) == 0) &&
  ((ns.any (fun n => n != -1 && aget board n == 0))
    || (ns.any (fun n => n != -1
          && (aget board n * _opponent_color s > 0 && inAtariAt board size n)))
    || (ns.any (fun n => n != -1
          && (aget board n * _my_color s > 0 && !(inAtariAt board size n)))))

/-- `Game.legal_action_mask(state)`. -/
def Game.legal_action_mask (g : Game) (s : GameState) : List Bool :=
  let mask := (List.range (g.size * g.size)).map (legalMaskCell s g.size)
  (if s.ko == -1 then mask else bset mask s.ko false) ++ [true]

/-- `Game.is_terminal(state)`. -/
def Game.is_terminal (g : Game) (s : GameState) : Bool :=
  (2 ≤ s.consecutive_pass_count) || s.is_psk

/-- Trinary board from the perspective of `color` (`_count_ji` lines 339-342). -/
def toTrit (board : List Int) (color : Int) : List Int :=
  board.map (fun v => if v * color > 0 then 1 else if v * color < 0 then -1 else 0)

/-- `is_opp_neighbours` in `_count_ji`: cell `i` is empty and has an
on-board neighbour marked `-1`. -/
def isOppNbr (b : List Int) (size : Nat) (i : Nat) : Bool :=
  b.getD i 0 == 0 &&
    ((_neighbour i size).any (fun n => n != -1 && aget b n == -1))

/-- One `fill_opp` sweep. -/
def fillOppOnce (b : List Int) (size : Nat) : List Int :=
  (List.range b.length).map (fun i => if isOppNbr b size i then -1 else b.getD i 0)

/-- The `while_loop` of `_count_ji`, with fuel (see the header comment:
`b.length + 1` fuel always reaches the fixpoint). -/
def fillLoop (size : Nat) : Nat → List Int → List Int
  | 0, b => b
  | fuel + 1, b =>
    if (List.range b.length).any (isOppNbr b size) then
      fillLoop size fuel (fillOppOnce b size)
    else b

/-- `_count_ji(state, color, size)`: territory of `color`. -/
def _count_ji (s : GameState) (color : Int) (size : Nat) : Int :=
  let b := toTrit s.chain_id_board color
  let b2 := fillLoop size (b.length + 1) b
  (b2.countP (fun v => v == 0) : Int)

/-- `_count_point(state, size)`: area scores `[black, white]`. The scores
are integer counts (float32 in go.py, exact for these magnitudes). -/
def _count_point (s : GameState) (size : Nat) : List Int :=
  [_count_ji s 1 size + (s.chain_id_board.countP (fun v => v > 0) : Int),
   _count_ji s (-1) size + (s.chain_id_board.countP (fun v => v < 0) : Int)]

/-- `Game.terminal_values(state)`: rewards `[black, white]`; the komi
comparison is carried out over exact rationals. -/
def Game.terminal_values (g : Game) (s : GameState) : List Int :=
  let score := _count_point s g.size
  let rewardBw : List Int :=
    if ((score.getD 0 0 : Int) : Rat) - g.komi > ((score.getD 1 0 : Int) : Rat)
    then [1, -1] else [-1, 1]
  if s.is_psk then lset [-1, -1] s.color 1 else rewardBw

/-- On-board orthogonal neighbours of `xy`, as cell coordinates. -/
def onbNbrs (xy size : Nat) : List Nat :=
  (_neighbour xy size).filterMap (fun n => if n == -1 then none else some n.toNat)

/-- The empty on-board neighbours of cell `i`: the liberties the member
cell `i` contributes to its chain, with multiplicity. -/
def emptyNbrs (board : List Int) (size : Nat) (i : Nat) : List Nat :=
  (_neighbour i size).filterMap
    (fun n => if n != -1 && aget board n == 0 then some n.toNat else none)

/-- Spec-level pseudo-liberty list of the chain with id `c`: for each board
cell carrying `c`, its empty on-board neighbours (with multiplicity). -/
def chainLibs (board : List Int) (size : Nat) (c : Int) : List Nat :=
  (List.range (size * size)).flatMap
    (fun i => if board.getD i 0 == c then emptyNbrs board size i else [])

/-- The chain has exactly one distinct liberty cell: its pseudo-liberty
list is nonempty and all its entries coincide. -/
def allSame (l : List Nat) : Bool :=
  match l with
  | [] => false
  | x :: xs => xs.all (fun y => y == x)

/-- Spec-level legality of playing at cell `i` (spec section 4.3): the cell
is empty and some on-board neighbour is empty, or holds an opponent chain
with exactly one distinct liberty, or holds a mover-owned chain with more
than one distinct liberty. -/
def specLegalCell (s : GameState) (size : Nat) (i : Nat) : Bool :=
  let board := s.chain_id_board
  (board.getD i 0 == 0) &&
  ((onbNbrs i size).any (fun n =>
    (board.getD n 0 == 0)
    || ((decide (board.getD n 0 * _opponent_color s > 0))
          && allSame (chainLibs board size (board.getD n 0)))
    || ((decide (board.getD n 0 * _my_color s > 0))
          && !allSame (chainLibs board size (board.getD n 0)))))

/-- Cells captured by the removal phase of a play: occupied before, empty
after the capture loop (before the new stone is placed). -/
def capturedCells (s : GameState) (xy size : Nat) : List Nat :=
  (List.range (size * size)).filter (fun j =>
    s.chain_id_board.getD j 0 != 0
      && (removalPhase { s with consecutive_pass_count := 0 } xy size).chain_id_board.getD j 0 == 0)

/-- Total number of stones captured by a play, as measured by the capture
counters around `_apply_action`. -/
def capturedDelta (s : GameState) (xy size : Nat) : Int :=
  ncget (_apply_action s xy size) - ncget s

/-- The trit snapshot a play pushes into the history ring. -/
def playSnapshot (s : GameState) (xy size : Nat) : List Int :=
  (_apply_action { s with ko := -1 } xy size).chain_id_board.map clip1

/-! ## Concrete states used as witnesses -/

/-- A 2x2 position: two black stones forming one chain, one white stone. -/
def c5S : GameState :=
  { color := 0
    chain_id_board := [2, 2, 0, -4]
    board_history := List.replicate 8 (List.replicate 4 2)
    num_captured_stones := [0, 0]
    consecutive_pass_count := 0
    ko := -1
    is_psk := false }

/-- A 5x5 position: a lone white stone in the corner (cell 0), a black
stone on one of its two neighbours (cell 1), black to move. -/
def c7State : GameState :=
  { color := 0
    chain_id_board :=
      [-1, 2, 0, 0, 0,  0, 0, 0, 0, 0,  0, 0, 0, 0, 0,
       0, 0, 0, 0, 0,  0, 0, 0, 0, 0]
    board_history := List.replicate 8 (List.replicate 25 2)
    num_captured_stones := [0, 0]
    consecutive_pass_count := 0
    ko := -1
    is_psk := false }

/-- A 3x3 ko position: white stones on cells 0, 2, 4, a black stone on
cell 3, black to move at cell 1 (captures exactly the stone on cell 0). -/
def c2wState : GameState :=
  { color := 0
    chain_id_board := [-1, 0, -3, 4, -5, 0, 0, 0, 0]
    board_history := List.replicate 8 (List.replicate 9 2)
    num_captured_stones := [0, 0]
    consecutive_pass_count := 0
    ko := -1
    is_psk := false }

/-- A 1x1 position whose history already contains the snapshot that playing
cell 0 will produce, so the move triggers the superko check. -/
def c3wState : GameState :=
  { color := 0
    chain_id_board := [0]
    board_history := [[1]] ++ List.replicate 7 [2]
    num_captured_stones := [0, 0]
    consecutive_pass_count := 0
    ko := -1
    is_psk := false }

/-- A 2x2 position with a single black stone, used for legality witnesses. -/
def c1wState : GameState :=
  { color := 0
    chain_id_board := [1, 0, 0, 0]
    board_history := List.replicate 8 (List.replicate 4 2)
    num_captured_stones := [0, 0]
    consecutive_pass_count := 0
    ko := -1
    is_psk := false }

/-! ## Frame lemmas -/

theorem foldl_proj {α : Type} (proj : GameState → α) (f : GameState → Nat → GameState)
    (h : ∀ t i, proj (f t i) = proj t) (l : List Nat) (t : GameState) :
    proj (l.foldl f t) = proj t := by
  induction l generalizing t with
  | nil => rfl
  | cons a l ih => rw [List.foldl_cons, ih, h]

theorem removalPhase_bh (s : GameState) (xy size : Nat) :
    (removalPhase s xy size).board_history = s.board_history := by
  unfold removalPhase
  exact foldl_proj _ _ (fun t i => by unfold removeStep; split <;> rfl) _ _

theorem removalPhase_color (s : GameState) (xy size : Nat) :
    (removalPhase s xy size).color = s.color := by
  unfold removalPhase
  exact foldl_proj _ _ (fun t i => by unfold removeStep; split <;> rfl) _ _

theorem removalPhase_cpc (s : GameState) (xy size : Nat) :
    (removalPhase s xy size).consecutive_pass_count = s.consecutive_pass_count := by
  unfold removalPhase
  exact foldl_proj _ _ (fun t i => by unfold removeStep; split <;> rfl) _ _

theorem removalPhase_psk (s : GameState) (xy size : Nat) :
    (removalPhase s xy size).is_psk = s.is_psk := by
  unfold removalPhase
  exact foldl_proj _ _ (fun t i => by unfold removeStep; split <;> rfl) _ _

theorem mergeAround_bh (i : Nat) (s : GameState) (xy size : Nat) :
    (_merge_around_xy i s xy size).board_history = s.board_history := by
  simp only [_merge_around_xy]; split <;> rfl

theorem mergeAround_color (i : Nat) (s : GameState) (xy size : Nat) :
    (_merge_around_xy i s xy size).color = s.color := by
  simp only [_merge_around_xy]; split <;> rfl

theorem mergeAround_cpc (i : Nat) (s : GameState) (xy size : Nat) :
    (_merge_around_xy i s xy size).consecutive_pass_count = s.consecutive_pass_count := by
  simp only [_merge_around_xy]; split <;> rfl

theorem mergeAround_ko (i : Nat) (s : GameState) (xy size : Nat) :
    (_merge_around_xy i s xy size).ko = s.ko := by
  simp only [_merge_around_xy]; split <;> rfl

theorem mergeAround_cap (i : Nat) (s : GameState) (xy size : Nat) :
    (_merge_around_xy i s xy size).num_captured_stones = s.num_captured_stones := by
  simp only [_merge_around_xy]; split <;> rfl

theorem mergeAround_psk (i : Nat) (s : GameState) (xy size : Nat) :
    (_merge_around_xy i s xy size).is_psk = s.is_psk := by
  simp only [_merge_around_xy]; split <;> rfl

theorem mergePhase_bh (t : GameState) (xy size : Nat) :
    (mergePhase t xy size).board_history = t.board_history :=
  foldl_proj _ _ (fun t i => mergeAround_bh i t xy size) _ _

theorem mergePhase_color (t : GameState) (xy size : Nat) :
    (mergePhase t xy size).color = t.color :=
  foldl_proj _ _ (fun t i => mergeAround_color i t xy size) _ _

theorem mergePhase_cpc (t : GameState) (xy size : Nat) :
    (mergePhase t xy size).consecutive_pass_count = t.consecutive_pass_count :=
  foldl_proj _ _ (fun t i => mergeAround_cpc i t xy size) _ _

theorem mergePhase_ko (t : GameState) (xy size : Nat) :
    (mergePhase t xy size).ko = t.ko :=
  foldl_proj _ _ (fun t i => mergeAround_ko i t xy size) _ _

theorem mergePhase_cap (t : GameState) (xy size : Nat) :
    (mergePhase t xy size).num_captured_stones = t.num_captured_stones :=
  foldl_proj _ _ (fun t i => mergeAround_cap i t xy size) _ _

theorem mergePhase_psk (t : GameState) (xy size : Nat) :
    (mergePhase t xy size).is_psk = t.is_psk :=
  foldl_proj _ _ (fun t i => mergeAround_psk i t xy size) _ _

theorem applyAction_bh (s : GameState) (xy size : Nat) :
    (_apply_action s xy size).board_history = s.board_history := by
  simp only [_apply_action]
  split <;> simp [mergePhase_bh, _set_stone, removalPhase_bh]

theorem applyAction_color (s : GameState) (xy size : Nat) :
    (_apply_action s xy size).color = s.color := by
  simp only [_apply_action]
  split <;> simp [mergePhase_color, _set_stone, removalPhase_color]

theorem applyAction_cpc (s : GameState) (xy size : Nat) :
    (_apply_action s xy size).consecutive_pass_count = 0 := by
  simp only [_apply_action]
  split <;> simp [mergePhase_cpc, _set_stone, removalPhase_cpc]

theorem applyAction_psk (s : GameState) (xy size : Nat) :
    (_apply_action s xy size).is_psk = s.is_psk := by
  simp only [_apply_action]
  split <;> simp [mergePhase_psk, _set_stone, removalPhase_psk]

/-! ## History-ring lemmas -/

theorem rollRows_length (l : List (List Int)) : (rollRows l).length = l.length := by
  unfold rollRows
  rcases h : l.reverse with _ | ⟨x, xs⟩
  · simp [List.reverse_eq_nil_iff.mp h]
  · have : l.length = (x :: xs).length := by rw [← h, List.length_reverse]
    simp [this]

theorem setRow0_length (l : List (List Int)) (r : List Int) (h : l ≠ []) :
    (setRow0 l r).length = l.length := by
  unfold setRow0
  cases l with
  | nil => exact absurd rfl h
  | cons a t => rfl

theorem setRow0_head (l : List (List Int)) (r : List Int) (h : l ≠ []) :
    (setRow0 l r).headD [] = r := by
  unfold setRow0
  cases l with
  | nil => exact absurd rfl h
  | cons a t => rfl

theorem setRow0_tail (l : List (List Int)) (r : List Int) :
    (setRow0 l r).tail = l.tail := by
  unfold setRow0
  cases l <;> rfl

theorem rollRows_tail (l : List (List Int)) : (rollRows l).tail = l.dropLast := by
  unfold rollRows
  rcases h : l.reverse with _ | ⟨x, xs⟩
  · simp [List.reverse_eq_nil_iff.mp h]
  · have hl : l = xs.reverse ++ [x] := by
      have := congrArg List.reverse h
      simpa using this
    rw [hl]
    simp

theorem stepBH (g : Game) (s : GameState) (a : Nat) :
    (g.step s a).board_history
      = setRow0 (rollRows s.board_history)
          ((if a < g.size * g.size then
              _apply_action { s with ko := -1 } a g.size
            else _apply_pass { s with ko := -1 }).chain_id_board.map clip1) := by
  simp only [Game.step]
  split
  · simp [applyAction_bh, _check_PSK]
  · simp [_apply_pass, _check_PSK]

/-! ## C10 -/

/-- Claim C10: stepping with the PASS action (any action at or beyond the
board area) yields a successor whose superko flag is false; the successor is
terminal exactly when its consecutive-pass counter has reached two, and that
counter is the predecessor counter plus one. -/
theorem C10_pass_clears_psk (g : Game) (s : GameState) (a : Nat)
    (hpass : g.size * g.size ≤ a) :
    (g.step s a).is_psk = false
    ∧ (g.is_terminal (g.step s a) = true ↔ 2 ≤ (g.step s a).consecutive_pass_count)
    ∧ (g.step s a).consecutive_pass_count = s.consecutive_pass_count + 1 := by
  have hlt : ¬ (a < g.size * g.size) := by omega
  simp only [Game.step, if_neg hlt, _apply_pass, _check_PSK, Game.is_terminal]
  simp

/-- Witness for C10 at a concrete input. -/
theorem C10_pass_clears_psk_witness :
    ((mkGame 2 1 8).size * (mkGame 2 1 8).size ≤ 4)
    ∧ ((mkGame 2 1 8).step (mkGame 2 1 8).init 4).is_psk = false :=
  ⟨by decide, (C10_pass_clears_psk (mkGame 2 1 8) (mkGame 2 1 8).init 4 (by decide)).1⟩

/-! ## getD helper lemmas -/

theorem getD_map_zero (f : Int → Int) (hf : f 0 = 0) (l : List Int) (j : Nat) :
    (l.map f).getD j 0 = f (l.getD j 0) := by
  rcases Nat.lt_or_ge j l.length with h | h
  · rw [List.getD_eq_getElem (l.map f) 0 (by simpa using h), List.getD_eq_getElem l 0 h]
    simp
  · rw [List.getD_eq_default (l.map f) 0 (by simpa using h), List.getD_eq_default l 0 h, hf]

theorem getD_set_self (l : List Int) (i : Nat) (v : Int) (h : i < l.length) :
    (l.set i v).getD i 0 = v := by
  rw [List.getD_eq_getElem (l.set i v) 0 (by simpa using h)]
  simp [List.getElem_set]

theorem getD_set_ne (l : List Int) (i j : Nat) (v : Int) (h : i ≠ j) :
    (l.set i v).getD j 0 = l.getD j 0 := by
  rw [List.getD_eq_getElem?_getD, List.getD_eq_getElem?_getD, List.getElem?_set_ne h]

/-! ## C5 -/

/-- Claim C5: removing a chain of k stones adds exactly k to the capture
count of the mover, leaves the other capture count unchanged, empties
exactly the member cells of that chain, and keeps every other cell
unchanged. -/
theorem C5_remove_stones (s : GameState) (c r : Int) (kmo : Bool)
    (HC : s.color < 2) (HL : s.num_captured_stones.length = 2) :
    ((_remove_stones s c r kmo).num_captured_stones.getD s.color 0
        = s.num_captured_stones.getD s.color 0
          + ((s.chain_id_board.countP (fun v => v == c) : Nat) : Int))
    ∧ (∀ j : Nat, j < 2 → j ≠ s.color →
        (_remove_stones s c r kmo).num_captured_stones.getD j 0
          = s.num_captured_stones.getD j 0)
    ∧ (∀ i : Nat, (_remove_stones s c r kmo).chain_id_board.getD i 0
        = if s.chain_id_board.getD i 0 = c then 0 else s.chain_id_board.getD i 0)
    ∧ (_remove_stones s c r kmo).chain_id_board.length = s.chain_id_board.length := by
  have hmin : min s.color (s.num_captured_stones.length - 1) = s.color := by
    rw [HL]; omega
  refine ⟨?_, ?_, ?_, ?_⟩
  · simp only [_remove_stones, capAdd, hmin]
    exact getD_set_self _ _ _ (by omega)
  · intro j hj2 hjne
    simp only [_remove_stones, capAdd, hmin]
    exact getD_set_ne _ _ _ _ (fun h => hjne h.symm)
  · intro i
    simp only [_remove_stones]
    rw [getD_map_zero (fun v => if v == c then 0 else v) (by simp only [ite_self]) _ i]
    by_cases h : s.chain_id_board.getD i 0 = c <;> simp [h]
  · simp [_remove_stones]

/-- Witness for C5: on `c5S`, removing the black chain with id 2 (two
stones) adds 2 to the capture count of the mover. -/
theorem C5_remove_stones_witness :
    (c5S.color < 2) ∧
    (_remove_stones c5S 2 0 false).num_captured_stones.getD c5S.color 0
      = c5S.num_captured_stones.getD c5S.color 0
        + ((c5S.chain_id_board.countP (fun v => v == 2) : Nat) : Int) :=
  ⟨by decide, (C5_remove_stones c5S 2 0 false (by decide) (by decide)).1⟩

/-! ## C6 -/

/-- Counterexample to claim C6: a game constructed with history depth 4
still gets an 8-entry history ring from `init` (go.py hard-codes 8). -/
theorem C6_counterexample :
    ¬ ((mkGame 3 (15/2) 4).init.board_history.length = 4) := by decide

/-- Claim C6 as amended: `init` always returns a history ring of exactly 8
entries regardless of the configured history depth, each entry filled with
the sentinel 2 (which no snapshot trit ever equals), and `step` preserves
the 8-entry ring. -/
theorem C6_amended (g : Game) :
    g.init.board_history.length = 8
    ∧ (∀ row ∈ g.init.board_history, row = List.replicate (g.size * g.size) 2)
    ∧ (∀ v : Int, clip1 v ≠ 2)
    ∧ (∀ (s : GameState) (a : Nat), s.board_history.length = 8 →
        (g.step s a).board_history.length = 8) := by
  refine ⟨by simp [Game.init], ?_, ?_, ?_⟩
  · intro row hrow
    exact List.eq_of_mem_replicate hrow
  · intro v
    have h1 : clip1 v ≤ 1 := min_le_left _ _
    omega
  · intro s a h
    have hne : rollRows s.board_history ≠ [] := by
      have hlen : (rollRows s.board_history).length = 8 := by rw [rollRows_length, h]
      intro hnil
      rw [hnil] at hlen
      exact absurd hlen (by decide)
    rw [stepBH, setRow0_length _ _ hne, rollRows_length, h]

/-- Witness for C6 (amended) at a concrete game and state. -/
theorem C6_amended_witness :
    ((mkGame 2 1 8).init.board_history.length = 8)
    ∧ (((mkGame 2 1 8).step (mkGame 2 1 8).init 0).board_history.length = 8) :=
  ⟨(C6_amended (mkGame 2 1 8)).1,
   (C6_amended (mkGame 2 1 8)).2.2.2 (mkGame 2 1 8).init 0 (by decide)⟩

/-! ## C9 -/

/-- Counterexample to claim C9: constructing a game with board side 0 does
not fail; it returns an ordinary `Game` value, and `init` happily returns a
fully formed state with an empty board. No validation exists in go.py. -/
theorem C9_counterexample :
    (mkGame 0 (15/2) 8).size = 0
    ∧ (mkGame 0 (15/2) 8).init
        = { color := 0, chain_id_board := [],
            board_history := List.replicate 8 [],
            num_captured_stones := [0, 0],
            consecutive_pass_count := 0, ko := -1, is_psk := false } := by
  constructor
  · rfl
  · decide

/-- Claim C9 as amended: construction performs no validation at all; every
parameter combination (including size 0) is accepted and stored verbatim. -/
theorem C9_amended (n : Nat) (k : Rat) (h : Nat) :
    (mkGame n k h).size = n ∧ (mkGame n k h).komi = k
      ∧ (mkGame n k h).history_length = h :=
  ⟨rfl, rfl, rfl⟩

/-! ## C3 -/

theorem step_cpc_play (g : Game) (s : GameState) (a : Nat)
    (Ha : a < g.size * g.size) :
    (g.step s a).consecutive_pass_count = 0 := by
  simp only [Game.step, if_pos Ha]
  exact applyAction_cpc _ _ _

theorem step_color (g : Game) (s : GameState) (a : Nat)
    (Ha : a < g.size * g.size) :
    (g.step s a).color = (s.color + 1) % 2 := by
  simp only [Game.step, if_pos Ha]
  rw [applyAction_color]

theorem step_psk_play (g : Game) (s : GameState) (a : Nat)
    (Ha : a < g.size * g.size) (Hh : s.board_history ≠ []) :
    (g.step s a).is_psk
      = s.board_history.dropLast.any
          (fun r => absDiffSum (playSnapshot s a g.size) r == 0) := by
  have hroll : rollRows s.board_history ≠ [] := by
    intro h0
    apply Hh
    have h1 := congrArg List.length h0
    rw [rollRows_length] at h1
    exact List.eq_nil_of_length_eq_zero (by simpa using h1)
  simp only [Game.step, if_pos Ha, _check_PSK]
  simp only [applyAction_cpc, applyAction_bh, playSnapshot]
  rw [setRow0_head _ _ hroll, setRow0_tail, rollRows_tail]
  simp

theorem absDiffSum_self (a : List Int) : absDiffSum a a = 0 := by
  unfold absDiffSum
  induction a with
  | nil => rfl
  | cons x xs ih => simpa using ih

theorem getD_dropLast_mem (l : List (List Int)) (k : Nat) (hk : k < l.length - 1) :
    l.getD k [] ∈ l.dropLast := by
  have hlen : k < l.dropLast.length := by
    rw [List.length_dropLast]; exact hk
  have hkl : k < l.length := by omega
  have : l.dropLast.getD k [] = l.getD k [] := by
    rw [List.getD_eq_getElem _ _ hlen, List.getD_eq_getElem _ _ hkl]
    exact List.getElem_dropLast l k hlen
  rw [← this, List.getD_eq_getElem _ _ hlen]
  exact List.getElem_mem hlen

/-- Claim C3: when a play recreates one of the 7 previous snapshots
retained in the history ring, the successor state has the superko flag set,
is terminal, and `terminal_values` rewards the mover (the colour that
played) with -1 and the opponent with +1. -/
theorem C3_superko_loss (g : Game) (s : GameState) (a : Nat)
    (Ha : a < g.size * g.size) (HC : s.color < 2)
    (Hh : s.board_history.length = 8)
    (Hrep : ∃ k, k < 7 ∧ playSnapshot s a g.size = s.board_history.getD k []) :
    (g.step s a).is_psk = true
    ∧ g.is_terminal (g.step s a) = true
    ∧ (g.terminal_values (g.step s a)).getD s.color 0 = -1
    ∧ (g.terminal_values (g.step s a)).getD ((s.color + 1) % 2) 0 = 1 := by
  obtain ⟨k, hk7, hsnap⟩ := Hrep
  have Hne : s.board_history ≠ [] := by
    intro h0; rw [h0] at Hh; exact absurd Hh (by decide)
  have hpsk : (g.step s a).is_psk = true := by
    rw [step_psk_play g s a Ha Hne]
    rw [List.any_eq_true]
    refine ⟨s.board_history.getD k [], getD_dropLast_mem _ _ (by omega), ?_⟩
    rw [← hsnap, absDiffSum_self]
    decide
  have hterm : g.is_terminal (g.step s a) = true := by
    unfold Game.is_terminal
    rw [hpsk, Bool.or_true]
  refine ⟨hpsk, hterm, ?_, ?_⟩ <;>
  · simp only [Game.terminal_values, hpsk, if_pos, step_color g s a Ha]
    rcases (by omega : s.color = 0 ∨ s.color = 1) with h0 | h1
    · rw [h0]; decide
    · rw [h1]; decide

/-- Witness for C3: on the 1x1 board position `c3wState`, playing cell 0
recreates the snapshot stored in the history ring and loses on the spot. -/
theorem C3_superko_loss_witness :
    (playSnapshot c3wState 0 1 = c3wState.board_history.getD 0 [])
    ∧ ((mkGame 1 (15/2) 8).step c3wState 0).is_psk = true
    ∧ (mkGame 1 (15/2) 8).is_terminal ((mkGame 1 (15/2) 8).step c3wState 0) = true
    ∧ ((mkGame 1 (15/2) 8).terminal_values ((mkGame 1 (15/2) 8).step c3wState 0)).getD 0 0 = -1 := by
  have h := C3_superko_loss (mkGame 1 (15/2) 8) c3wState 0 (by decide) (by decide)
    (by decide) ⟨0, by decide, by decide⟩
  exact ⟨by decide, h.1, h.2.1, h.2.2.1⟩

/-! ## C7 -/

/-- Counterexample to claim C7: in the corner-capture scenario the code
does not set the ko coordinate at all (the ko-may-occur predicate fails at
the played edge cell, which has empty neighbours), so the successor ko is
-1, not the corner cell 0. -/
theorem C7_counterexample :
    ¬ (((mkGame 5 (15/2) 8).step c7State 5).ko = 0) := by decide

/-- Claim C7 as amended: black playing the second neighbour (cell 5)
captures the lone white corner stone: the capture count of black increases
by exactly 1 and the corner cell becomes empty; however the ko coordinate
is NOT set (it stays -1), because the played cell has empty neighbours so
`_ko_may_occur` is false. The corner is nevertheless illegal for white
immediately afterwards (it would be a suicide), not because of ko. -/
theorem C7_amended :
    (((mkGame 5 (15/2) 8).step c7State 5).num_captured_stones = [1, 0])
    ∧ (((mkGame 5 (15/2) 8).step c7State 5).chain_id_board.getD 0 0 = 0)
    ∧ (((mkGame 5 (15/2) 8).step c7State 5).ko = -1)
    ∧ (_ko_may_occur c7State 5 5 = false)
    ∧ (((mkGame 5 (15/2) 8).legal_action_mask ((mkGame 5 (15/2) 8).step c7State 5)).getD 0 false = false) := by
  refine ⟨by decide, by decide, by decide, by decide, by decide⟩

/-! ## C8 -/

/-- Counterexample to claim C8: after two passes from the empty 5x5 board
the computed area scores are NOT `[0, 0]`. -/
theorem C8_counterexample :
    ¬ (_count_point ((mkGame 5 (1/2) 8).step ((mkGame 5 (1/2) 8).step (mkGame 5 (1/2) 8).init 25) 25) 5 = [0, 0]) := by
  decide

/-- Claim C8 as amended: on the empty 5x5 board with komi 0.5, two passes
end the game, the computed area score is 25 for BOTH colours (on an empty
board every empty cell counts as territory for each colour, the opponent
being unreachable), and the reward is (-1, +1): white wins by komi. -/
theorem C8_amended :
    ((mkGame 5 (1/2) 8).is_terminal ((mkGame 5 (1/2) 8).step ((mkGame 5 (1/2) 8).step (mkGame 5 (1/2) 8).init 25) 25) = true)
    ∧ (_count_point ((mkGame 5 (1/2) 8).step ((mkGame 5 (1/2) 8).step (mkGame 5 (1/2) 8).init 25) 25) 5 = [25, 25])
    ∧ ((mkGame 5 (1/2) 8).terminal_values ((mkGame 5 (1/2) 8).step ((mkGame 5 (1/2) 8).step (mkGame 5 (1/2) 8).init 25) 25) = [-1, 1]) := by
  refine ⟨by decide, by decide, ?_⟩
  have hscore : _count_point ((mkGame 5 (1/2) 8).step ((mkGame 5 (1/2) 8).step (mkGame 5 (1/2) 8).init 25) 25) 5 = [25, 25] := by decide
  have hpsk : ((mkGame 5 (1/2) 8).step ((mkGame 5 (1/2) 8).step (mkGame 5 (1/2) 8).init 25) 25).is_psk = false := by decide
  have hsz : (mkGame 5 (1/2) 8).size = 5 := rfl
  have hk : (mkGame 5 (1/2) 8).komi = 1/2 := rfl
  simp only [Game.terminal_values, hsz, hk, hpsk, hscore, Bool.false_eq_true, if_false]
  norm_num [lset]

/-! ## The sum-of-squares identity on lists of integers -/

theorem sum_map_sub_sq (a : Int) (l : List Int) :
    (l.map (fun x => (a - x) ^ 2)).sum
      = (l.length : Int) * a ^ 2 - 2 * a * l.sum + (l.map (fun x => x ^ 2)).sum := by
  induction l with
  | nil => simp
  | cons x xs ih =>
    simp only [List.map_cons, List.sum_cons, List.length_cons, ih]
    push_cast
    ring

theorem sqsum_len_rec (a : Int) (l : List Int) :
    ((a :: l).map (fun x => x ^ 2)).sum * ((a :: l).length : Int) - ((a :: l).sum) ^ 2
      = ((l.map (fun x => x ^ 2)).sum * (l.length : Int) - (l.sum) ^ 2)
        + (l.map (fun x => (a - x) ^ 2)).sum := by
  rw [sum_map_sub_sq]
  simp only [List.map_cons, List.sum_cons, List.length_cons]
  push_cast
  ring

theorem sub_sq_sum_nonneg (a : Int) (l : List Int) :
    0 ≤ (l.map (fun x => (a - x) ^ 2)).sum := by
  apply List.sum_nonneg
  intro x hx
  obtain ⟨y, _, rfl⟩ := List.mem_map.mp hx
  positivity

theorem sqsum_len_nonneg (l : List Int) :
    0 ≤ (l.map (fun x => x ^ 2)).sum * (l.length : Int) - (l.sum) ^ 2 := by
  induction l with
  | nil => simp
  | cons a xs ih =>
    rw [sqsum_len_rec]
    have := sub_sq_sum_nonneg a xs
    omega

theorem sub_sq_sum_eq_zero_iff (a : Int) (l : List Int) :
    (l.map (fun x => (a - x) ^ 2)).sum = 0 ↔ ∀ x ∈ l, x = a := by
  induction l with
  | nil => simp
  | cons x xs ih =>
    simp only [List.map_cons, List.sum_cons, List.mem_cons]
    constructor
    · intro h
      have h1 : 0 ≤ (a - x) ^ 2 := sq_nonneg _
      have h2 : 0 ≤ (xs.map (fun x => (a - x) ^ 2)).sum := sub_sq_sum_nonneg a xs
      have hx : (a - x) ^ 2 = 0 := by omega
      have hx' : x = a := by nlinarith [sq_nonneg (a - x)]
      refine fun y hy => hy.elim (fun h' => h' ▸ hx') (fun h' => (ih.mp (by omega)) y h')
    · intro h
      have hx : x = a := h x (Or.inl rfl)
      have hrest : (xs.map (fun x => (a - x) ^ 2)).sum = 0 :=
        ih.mpr (fun y hy => h y (Or.inr hy))
      rw [hx, hrest]
      ring

theorem sqsum_len_eq_zero_iff (l : List Int) :
    (l.map (fun x => x ^ 2)).sum * (l.length : Int) = (l.sum) ^ 2
      ↔ ∀ x ∈ l, ∀ y ∈ l, x = y := by
  induction l with
  | nil => simp
  | cons a xs ih =>
    have hrec := sqsum_len_rec a xs
    have h1 := sqsum_len_nonneg xs
    have h2 := sub_sq_sum_nonneg a xs
    constructor
    · intro h
      have h0 : ((a :: xs).map (fun x => x ^ 2)).sum * ((a :: xs).length : Int)
          - ((a :: xs).sum) ^ 2 = 0 := by omega
      rw [hrec] at h0
      have hxs : (xs.map (fun x => x ^ 2)).sum * (xs.length : Int) - (xs.sum) ^ 2 = 0 := by omega
      have hsub : (xs.map (fun x => (a - x) ^ 2)).sum = 0 := by omega
      have hall : ∀ x ∈ xs, x = a := (sub_sq_sum_eq_zero_iff a xs).mp hsub
      intro x hx y hy
      rcases List.mem_cons.mp hx with rfl | hx' <;> rcases List.mem_cons.mp hy with rfl | hy'
      · rfl
      · exact (hall y hy').symm
      · exact hall x hx'
      · exact (hall x hx').trans (hall y hy').symm
    · intro h
      have hall : ∀ x ∈ xs, x = a := fun x hx => h x (List.mem_cons.mpr (Or.inr hx)) a (List.mem_cons.mpr (Or.inl rfl))
      have hsub : (xs.map (fun x => (a - x) ^ 2)).sum = 0 :=
        (sub_sq_sum_eq_zero_iff a xs).mpr hall
      have hxs : (xs.map (fun x => x ^ 2)).sum * (xs.length : Int) = (xs.sum) ^ 2 :=
        ih.mpr (fun x hx y hy => ((hall x hx).trans (hall y hy).symm))
      have h0 : ((a :: xs).map (fun x => x ^ 2)).sum * ((a :: xs).length : Int)
          - ((a :: xs).sum) ^ 2 = 0 := by rw [hrec]; omega
      omega

/-! ## Transfer lemmas between `_count` and `chainLibs` -/

theorem getD_range_map {α : Type} [Inhabited α] (n : Nat) (f : Nat → α) (x : Nat)
    (hx : x < n) (d : α) : (((List.range n).map f).getD x d) = f x := by
  rw [List.getD_eq_getElem _ _ (by simpa using hx)]
  simp

theorem sum_map_eq_filterMap (ns : List Int) (f : Int → Int) (sel : Int → Option Nat)
    (g : Nat → Int) (h : ∀ n ∈ ns, f n = (sel n).elim 0 g) :
    (ns.map f).sum = ((ns.filterMap sel).map g).sum := by
  induction ns with
  | nil => rfl
  | cons n ns ih =>
    have hn := h n (List.mem_cons.mpr (Or.inl rfl))
    have hrest := ih (fun m hm => h m (List.mem_cons.mpr (Or.inr hm)))
    rcases hsel : sel n with _ | e
    · rw [List.map_cons, List.sum_cons, List.filterMap_cons_none hsel, hrest, hn, hsel]
      simp
    · rw [List.map_cons, List.sum_cons, List.filterMap_cons_some hsel,
        List.map_cons, List.sum_cons, hrest, hn, hsel]
      rfl

theorem sum_map_ite_flatMap (l : List Nat) (p : Nat → Bool) (F : Nat → List Nat)
    (g : Nat → Int) :
    (l.map (fun i => if p i then ((F i).map g).sum else 0)).sum
      = ((l.flatMap (fun i => if p i then F i else [])).map g).sum := by
  induction l with
  | nil => rfl
  | cons a l ih =>
    rw [List.map_cons, List.sum_cons, List.flatMap_cons, List.map_append, List.sum_append, ih]
    by_cases h : p a = true <;> simp [h]

theorem map_const_one_sum (l : List Nat) : (l.map (fun _ => (1 : Int))).sum = l.length := by
  induction l with
  | nil => rfl
  | cons a l ih => simp [ih]; omega

theorem neighbour_cases (xy size : Nat) :
    ∀ n ∈ _neighbour xy size, n = -1 ∨ (0 ≤ n ∧ n < ((size * size : Nat) : Int)) := by
  intro n hn
  have hcase : ∀ x y : Int, nbAt x y size = -1
      ∨ (0 ≤ nbAt x y size ∧ nbAt x y size < ((size * size : Nat) : Int)) := by
    intro x y
    unfold nbAt
    split
    · next hb =>
      simp only [Bool.and_eq_true, decide_eq_true_eq] at hb
      right
      obtain ⟨⟨⟨hx0, hxs⟩, hy0⟩, hys⟩ := hb
      constructor
      · positivity
      · push_cast
        nlinarith
    · left; rfl
  unfold _neighbour at hn
  simp only [List.mem_cons, List.not_mem_nil, or_false] at hn
  rcases hn with rfl | rfl | rfl | rfl <;> apply hcase

theorem cellNp_spec (board : List Int) (size : Nat) (i : Nat) :
    cellNp board size i = ((emptyNbrs board size i).length : Int) := by
  unfold cellNp emptyNbrs
  rw [← map_const_one_sum]
  apply sum_map_eq_filterMap
  intro n hn
  by_cases h : (n != -1 && aget board n == 0) = true <;> simp [h]

theorem cellIdxSum_spec (board : List Int) (size : Nat) (i : Nat) :
    cellIdxSum board size i = ((emptyNbrs board size i).map (fun (e : Nat) => (e : Int) + 1)).sum := by
  unfold cellIdxSum emptyNbrs
  apply sum_map_eq_filterMap
  intro n hn
  rcases neighbour_cases i size n hn with rfl | ⟨h0, _⟩
  · simp
  · by_cases h : (n != -1 && aget board n == 0) = true
    · simp only [h, if_true, Option.elim]
      rw [Int.toNat_of_nonneg h0]
    · simp [h]

theorem cellSqSum_spec (board : List Int) (size : Nat) (i : Nat) :
    cellSqSum board size i
      = ((emptyNbrs board size i).map (fun (e : Nat) => ((e : Int) + 1) ^ 2)).sum := by
  unfold cellSqSum emptyNbrs
  apply sum_map_eq_filterMap
  intro n hn
  rcases neighbour_cases i size n hn with rfl | ⟨h0, _⟩
  · simp
  · by_cases h : (n != -1 && aget board n == 0) = true
    · simp only [h, if_true, Option.elim]
      rw [Int.toNat_of_nonneg h0]
    · simp [h]

theorem chainAgg_spec (board : List Int) (size : Nat) (percell : Nat → Int) (c : Int)
    (hc : c ≠ 0) (habs : c.natAbs ≤ size * size)
    (Htwin : ∀ i < size * size, (board.getD i 0).natAbs = c.natAbs → board.getD i 0 = c) :
    (chainAgg board size percell).getD (c.natAbs - 1) 0
      = ((List.range (size * size)).map
          (fun i => if board.getD i 0 == c then percell i else 0)).sum := by
  unfold chainAgg
  have h1 : 1 ≤ c.natAbs := Int.natAbs_pos.mpr hc
  have hx : c.natAbs - 1 < size * size := by omega
  rw [getD_range_map _ _ _ hx]
  congr 1
  apply List.map_congr_left
  intro i hi
  have hi' : i < size * size := List.mem_range.mp hi
  have hcond : ((board.getD i 0).natAbs == c.natAbs - 1 + 1)
      = (board.getD i 0 == c) := by
    have he : c.natAbs - 1 + 1 = c.natAbs := by omega
    rw [he]
    cases hb : (board.getD i 0 == c) with
    | false =>
      have hb' : board.getD i 0 ≠ c := by simpa using hb
      rw [beq_eq_false_iff_ne]
      exact fun h => hb' (Htwin i hi' h)
    | true =>
      have hb' : board.getD i 0 = c := by simpa using hb
      rw [beq_iff_eq, hb']
  rw [hcond]

theorem count_np_spec (board : List Int) (size : Nat) (c : Int)
    (hc : c ≠ 0) (habs : c.natAbs ≤ size * size)
    (Htwin : ∀ i < size * size, (board.getD i 0).natAbs = c.natAbs → board.getD i 0 = c) :
    (_count board size).1.getD (c.natAbs - 1) 0 = ((chainLibs board size c).length : Int) := by
  show (chainAgg board size (cellNp board size)).getD (c.natAbs - 1) 0 = _
  rw [chainAgg_spec board size _ c hc habs Htwin]
  unfold chainLibs
  rw [← map_const_one_sum, ← sum_map_ite_flatMap]
  congr 1
  apply List.map_congr_left
  intro i hi
  rw [cellNp_spec, ← map_const_one_sum]

theorem count_isum_spec (board : List Int) (size : Nat) (c : Int)
    (hc : c ≠ 0) (habs : c.natAbs ≤ size * size)
    (Htwin : ∀ i < size * size, (board.getD i 0).natAbs = c.natAbs → board.getD i 0 = c) :
    (_count board size).2.1.getD (c.natAbs - 1) 0
      = ((chainLibs board size c).map (fun (e : Nat) => (e : Int) + 1)).sum := by
  show (chainAgg board size (cellIdxSum board size)).getD (c.natAbs - 1) 0 = _
  rw [chainAgg_spec board size _ c hc habs Htwin]
  unfold chainLibs
  rw [← sum_map_ite_flatMap]
  congr 1
  apply List.map_congr_left
  intro i hi
  rw [cellIdxSum_spec]

theorem count_sqsum_spec (board : List Int) (size : Nat) (c : Int)
    (hc : c ≠ 0) (habs : c.natAbs ≤ size * size)
    (Htwin : ∀ i < size * size, (board.getD i 0).natAbs = c.natAbs → board.getD i 0 = c) :
    (_count board size).2.2.getD (c.natAbs - 1) 0
      = ((chainLibs board size c).map (fun (e : Nat) => ((e : Int) + 1) ^ 2)).sum := by
  show (chainAgg board size (cellSqSum board size)).getD (c.natAbs - 1) 0 = _
  rw [chainAgg_spec board size _ c hc habs Htwin]
  unfold chainLibs
  rw [← sum_map_ite_flatMap]
  congr 1
  apply List.map_congr_left
  intro i hi
  rw [cellSqSum_spec]

theorem allSame_iff (l : List Nat) :
    allSame l = true ↔ (l ≠ [] ∧ ∀ x ∈ l, ∀ y ∈ l, x = y) := by
  cases l with
  | nil => simp [allSame]
  | cons a xs =>
    simp only [allSame, List.all_eq_true, beq_iff_eq, ne_eq, reduceCtorEq,
      not_false_iff, true_and]
    constructor
    · intro h x hx y hy
      have hax : ∀ z, z ∈ a :: xs → z = a := by
        intro z hz
        rcases List.mem_cons.mp hz with rfl | hz'
        · rfl
        · exact h z hz'
      rw [hax x hx, hax y hy]
    · intro h y hy
      exact h y (List.mem_cons.mpr (Or.inr hy)) a (List.mem_cons.mpr (Or.inl rfl))

theorem pairwise_map_cast_iff (l : List Nat) :
    (∀ x ∈ l.map (fun (e : Nat) => (e : Int) + 1), ∀ y ∈ l.map (fun (e : Nat) => (e : Int) + 1), x = y)
      ↔ (∀ x ∈ l, ∀ y ∈ l, x = y) := by
  constructor
  · intro h x hx y hy
    have := h _ (List.mem_map_of_mem _ hx) _ (List.mem_map_of_mem _ hy)
    omega
  · intro h x hx y hy
    obtain ⟨x', hx', rfl⟩ := List.mem_map.mp hx
    obtain ⟨y', hy', rfl⟩ := List.mem_map.mp hy
    rw [h x' hx' y' hy']

theorem sum_eq_length_mul (l : List Int) (v : Int) (h : ∀ x ∈ l, x = v) :
    l.sum = (l.length : Int) * v := by
  induction l with
  | nil => simp
  | cons a xs ih =>
    have ha : a = v := h a (List.mem_cons.mpr (Or.inl rfl))
    have hrest := ih (fun x hx => h x (List.mem_cons.mpr (Or.inr hx)))
    simp only [List.sum_cons, List.length_cons, hrest, ha]
    push_cast
    ring

theorem atari_test_iff (board : List Int) (size : Nat) (c : Int)
    (hc : c ≠ 0) (habs : c.natAbs ≤ size * size)
    (Htwin : ∀ i < size * size, (board.getD i 0).natAbs = c.natAbs → board.getD i 0 = c)
    (Hlib : chainLibs board size c ≠ []) :
    ((_count board size).2.1.getD (c.natAbs - 1) 0) ^ 2
        = ((_count board size).2.2.getD (c.natAbs - 1) 0)
          * ((_count board size).1.getD (c.natAbs - 1) 0)
      ↔ allSame (chainLibs board size c) = true := by
  rw [count_np_spec board size c hc habs Htwin, count_isum_spec board size c hc habs Htwin,
    count_sqsum_spec board size c hc habs Htwin]
  have hmm : ((chainLibs board size c).map (fun (e : Nat) => ((e : Int) + 1) ^ 2))
      = (((chainLibs board size c).map (fun (e : Nat) => (e : Int) + 1)).map (fun x => x ^ 2)) := by
    rw [List.map_map]; rfl
  have hlen : (((chainLibs board size c).map (fun (e : Nat) => (e : Int) + 1)).length : Int)
      = ((chainLibs board size c).length : Int) := by rw [List.length_map]
  rw [hmm, ← hlen, allSame_iff]
  constructor
  · intro h
    exact ⟨Hlib, (pairwise_map_cast_iff _).mp ((sqsum_len_eq_zero_iff _).mp h.symm)⟩
  · intro h
    exact ((sqsum_len_eq_zero_iff _).mpr ((pairwise_map_cast_iff _).mpr h.2)).symm

theorem single_liberty_spec (board : List Int) (size : Nat) (c : Int)
    (hc : c ≠ 0) (habs : c.natAbs ≤ size * size)
    (Htwin : ∀ i < size * size, (board.getD i 0).natAbs = c.natAbs → board.getD i 0 = c)
    (Hlib : chainLibs board size c ≠ [])
    (Heq : ((_count board size).2.1.getD (c.natAbs - 1) 0) ^ 2
        = ((_count board size).2.2.getD (c.natAbs - 1) 0)
          * ((_count board size).1.getD (c.natAbs - 1) 0)) :
    ∀ e ∈ chainLibs board size c,
      ((_count board size).2.2.getD (c.natAbs - 1) 0).fdiv
        ((_count board size).2.1.getD (c.natAbs - 1) 0) - 1 = (e : Int) := by
  intro e he
  have hall := (allSame_iff _).mp
    ((atari_test_iff board size c hc habs Htwin Hlib).mp Heq)
  have hv : ∀ x ∈ chainLibs board size c, x = e := fun x hx => hall.2 x hx e he
  have hisum : (_count board size).2.1.getD (c.natAbs - 1) 0
      = (((chainLibs board size c).length : Int)) * ((e : Int) + 1) := by
    rw [count_isum_spec board size c hc habs Htwin]
    rw [← List.length_map (chainLibs board size c) (fun (e : Nat) => (e : Int) + 1)]
    apply sum_eq_length_mul
    intro x hx
    obtain ⟨x', hx', rfl⟩ := List.mem_map.mp hx
    rw [hv x' hx']
  have hsq : (_count board size).2.2.getD (c.natAbs - 1) 0
      = (((chainLibs board size c).length : Int)) * ((e : Int) + 1) ^ 2 := by
    rw [count_sqsum_spec board size c hc habs Htwin]
    rw [← List.length_map (chainLibs board size c) (fun (e : Nat) => ((e : Int) + 1) ^ 2)]
    apply sum_eq_length_mul
    intro x hx
    obtain ⟨x', hx', rfl⟩ := List.mem_map.mp hx
    rw [hv x' hx']
  have hne : (((chainLibs board size c).length : Int)) * ((e : Int) + 1) ≠ 0 := by
    have hn : 0 < (chainLibs board size c).length :=
      List.length_pos.mpr (List.ne_nil_of_mem he)
    have hv1 : (0 : Int) < (e : Int) + 1 := by positivity
    positivity
  rw [hisum, hsq]
  have hfac : (((chainLibs board size c).length : Int)) * ((e : Int) + 1) ^ 2
      = ((((chainLibs board size c).length : Int)) * ((e : Int) + 1)) * ((e : Int) + 1) := by
    ring
  rw [hfac, Int.mul_fdiv_cancel_left _ hne]
  ring

/-- Claim C4: for a chain with at least one liberty, the pseudo-liberty
test `idx_sum^2 = idx_squared_sum * num_pseudo` computed by `_count` holds
iff the chain has exactly one distinct liberty cell, and in that case
`idx_squared_sum / idx_sum - 1` (floor division, exact here) is that
liberty. Hypotheses: the chain id occurs only with one sign (`Htwin`, the
go.py chain-id invariant) and the chain has at least one liberty. -/
theorem C4_atari_identity (board : List Int) (size : Nat) (c : Int)
    (hc : c ≠ 0) (habs : c.natAbs ≤ size * size)
    (Htwin : ∀ i < size * size, (board.getD i 0).natAbs = c.natAbs → board.getD i 0 = c)
    (Hlib : chainLibs board size c ≠ []) :
    (((_count board size).2.1.getD (c.natAbs - 1) 0) ^ 2
        = ((_count board size).2.2.getD (c.natAbs - 1) 0)
          * ((_count board size).1.getD (c.natAbs - 1) 0)
      ↔ allSame (chainLibs board size c) = true)
    ∧ (((_count board size).2.1.getD (c.natAbs - 1) 0) ^ 2
        = ((_count board size).2.2.getD (c.natAbs - 1) 0)
          * ((_count board size).1.getD (c.natAbs - 1) 0) →
        ∀ e ∈ chainLibs board size c,
          ((_count board size).2.2.getD (c.natAbs - 1) 0).fdiv
            ((_count board size).2.1.getD (c.natAbs - 1) 0) - 1 = (e : Int)) :=
  ⟨atari_test_iff board size c hc habs Htwin Hlib,
   fun heq => single_liberty_spec board size c hc habs Htwin Hlib heq⟩

/-- Witness for C4 on a concrete 2x2 board with one black stone: the chain
has two distinct liberties, and indeed the test fails on it. -/
theorem C4_atari_identity_witness :
    ((1 : Int) ≠ 0) ∧ (chainLibs [1, 0, 0, 0] 2 1 ≠ []) ∧
    ((((_count [1, 0, 0, 0] 2).2.1.getD 0 0) ^ 2
        = ((_count [1, 0, 0, 0] 2).2.2.getD 0 0) * ((_count [1, 0, 0, 0] 2).1.getD 0 0))
      ↔ allSame (chainLibs [1, 0, 0, 0] 2 1) = true) :=
  ⟨by decide, by decide,
   (C4_atari_identity [1, 0, 0, 0] 2 1 (by decide) (by decide) (by decide) (by decide)).1⟩

/-! ## Support lemmas for the legal-mask claim -/

theorem bool_eq_of_iff {a b : Bool} (h : a = true ↔ b = true) : a = b := by
  cases a <;> cases b <;> simp_all

theorem getD_set_self' {α : Type} (l : List α) (i : Nat) (v d : α) (h : i < l.length) :
    (l.set i v).getD i d = v := by
  rw [List.getD_eq_getElem (l.set i v) d (by simpa using h)]
  simp [List.getElem_set]

theorem getD_set_ne' {α : Type} (l : List α) (i j : Nat) (v d : α) (h : i ≠ j) :
    (l.set i v).getD j d = l.getD j d := by
  rw [List.getD_eq_getElem?_getD, List.getD_eq_getElem?_getD, List.getElem?_set_ne h]

theorem clampIdx_of_nonneg_lt {len : Nat} {k : Int} (h0 : 0 ≤ k) (h1 : k < (len : Int)) :
    clampIdx len k = k.toNat := by
  unfold clampIdx
  rw [if_neg (by omega)]
  exact Nat.min_eq_left (by omega)

theorem aget_eq_getD (l : List Int) (k : Int) (h0 : 0 ≤ k) (h1 : k < (l.length : Int)) :
    aget l k = l.getD k.toNat 0 := by
  unfold aget
  rw [clampIdx_of_nonneg_lt h0 h1]

theorem chainAgg_length (board : List Int) (size : Nat) (percell : Nat → Int) :
    (chainAgg board size percell).length = size * size := by
  unfold chainAgg
  rw [List.length_map, List.length_range]

theorem any_or_distrib {α : Type} (l : List α) (p q : α → Bool) :
    (l.any p || l.any q) = l.any (fun x => p x || q x) := by
  induction l with
  | nil => rfl
  | cons a l ih =>
    simp only [List.any_cons]
    cases p a <;> cases q a <;> simp [← ih]

theorem any_congr' {α : Type} (l : List α) (p q : α → Bool)
    (h : ∀ x ∈ l, p x = q x) : l.any p = l.any q := by
  induction l with
  | nil => rfl
  | cons a l ih =>
    simp only [List.any_cons]
    rw [h a (List.mem_cons.mpr (Or.inl rfl)),
      ih (fun x hx => h x (List.mem_cons.mpr (Or.inr hx)))]

theorem any_map_eq_filterMap (ns : List Int) (f : Int → Bool) (sel : Int → Option Nat)
    (g : Nat → Bool) (h : ∀ n ∈ ns, f n = ((sel n).map g).getD false) :
    ns.any f = (ns.filterMap sel).any g := by
  induction ns with
  | nil => rfl
  | cons n ns ih =>
    have hn := h n (List.mem_cons.mpr (Or.inl rfl))
    have hrest := ih (fun m hm => h m (List.mem_cons.mpr (Or.inr hm)))
    rcases hsel : sel n with _ | e
    · rw [List.any_cons, List.filterMap_cons_none hsel, hrest, hn, hsel]
      simp
    · rw [List.any_cons, List.filterMap_cons_some hsel, List.any_cons, hrest, hn, hsel]
      rfl

theorem inAtariAt_eq_allSame (board : List Int) (size : Nat) (n' : Nat)
    (HB : board.length = size * size) (hn : n' < size * size)
    (hocc : board.getD n' 0 ≠ 0)
    (habs : (board.getD n' 0).natAbs ≤ size * size)
    (Htwin : ∀ i < size * size,
      (board.getD i 0).natAbs = (board.getD n' 0).natAbs → board.getD i 0 = board.getD n' 0)
    (Hlib : chainLibs board size (board.getD n' 0) ≠ []) :
    inAtariAt board size (Int.ofNat n') = allSame (chainLibs board size (board.getD n' 0)) := by
  apply bool_eq_of_iff
  have hb : aget board (Int.ofNat n') = board.getD n' 0 := by
    rw [aget_eq_getD board _ (by exact Int.ofNat_nonneg n')
      (by show ((n' : Nat) : Int) < _; rw [HB]; exact_mod_cast hn)]
    rfl
  have h1 : 1 ≤ (board.getD n' 0).natAbs := Int.natAbs_pos.mpr hocc
  have hcix0 : (0 : Int) ≤ ((board.getD n' 0).natAbs : Int) - 1 := by omega
  have htoNat : (((board.getD n' 0).natAbs : Int) - 1).toNat = (board.getD n' 0).natAbs - 1 := by
    omega
  have hcix1 : ((board.getD n' 0).natAbs : Int) - 1 < ((size * size : Nat) : Int) := by
    omega
  have hlen1 : ((_count board size).1.length : Int) = ((size * size : Nat) : Int) := by
    show ((chainAgg board size (cellNp board size)).length : Int) = _
    rw [chainAgg_length]
  have hlen2 : ((_count board size).2.1.length : Int) = ((size * size : Nat) : Int) := by
    show ((chainAgg board size (cellIdxSum board size)).length : Int) = _
    rw [chainAgg_length]
  have hlen3 : ((_count board size).2.2.length : Int) = ((size * size : Nat) : Int) := by
    show ((chainAgg board size (cellSqSum board size)).length : Int) = _
    rw [chainAgg_length]
  simp only [inAtariAt, hb]
  rw [aget_eq_getD _ _ hcix0 (by rw [hlen2]; exact hcix1),
    aget_eq_getD _ _ hcix0 (by rw [hlen3]; exact hcix1),
    aget_eq_getD _ _ hcix0 (by rw [hlen1]; exact hcix1), htoNat]
  rw [beq_iff_eq]
  exact atari_test_iff board size (board.getD n' 0) hocc habs Htwin Hlib

theorem any_or3 {α : Type} (l : List α) (p q r : α → Bool) :
    (l.any p || l.any q || l.any r) = l.any (fun x => p x || q x || r x) := by
  rw [any_or_distrib, any_or_distrib]

theorem legalMaskCell_eq_spec (s : GameState) (size : Nat) (i : Nat)
    (HB : s.chain_id_board.length = size * size) (hi : i < size * size)
    (Habs : ∀ j < size * size, (s.chain_id_board.getD j 0).natAbs ≤ size * size)
    (Htwin : ∀ j < size * size, ∀ k < size * size,
      (s.chain_id_board.getD j 0).natAbs = (s.chain_id_board.getD k 0).natAbs →
        s.chain_id_board.getD j 0 = s.chain_id_board.getD k 0)
    (Hlib : ∀ j < size * size, s.chain_id_board.getD j 0 ≠ 0 →
      chainLibs s.chain_id_board size (s.chain_id_board.getD j 0) ≠ []) :
    legalMaskCell s size i = specLegalCell s size i := by
  simp only [legalMaskCell, specLegalCell, Int.ofNat_eq_coe]
  have hb : aget s.chain_id_board ((i : Nat) : Int) = s.chain_id_board.getD i 0 := by
    rw [aget_eq_getD _ ((i : Nat) : Int) (by exact_mod_cast Nat.zero_le i)
      (by rw [HB]; exact_mod_cast hi)]
    simp
  rw [hb]
  congr 1
  rw [any_or3]
  unfold onbNbrs
  apply any_map_eq_filterMap
  intro n hn
  rcases neighbour_cases i size n hn with rfl | ⟨h0, h1⟩
  · simp
  · have hne : (n != -1) = true := by
      simp only [bne_iff_ne, ne_eq]
      omega
    have hsel : (if n == -1 then none else some n.toNat) = some n.toNat := by
      rw [if_neg]
      simp only [beq_iff_eq]
      omega
    rw [hsel]
    have hagn : aget s.chain_id_board n = s.chain_id_board.getD n.toNat 0 := by
      rw [aget_eq_getD _ _ h0 (by rw [HB]; exact h1)]
    have hnlt : n.toNat < size * size := by omega
    simp only [hne, Bool.true_and, hagn, Option.map_some', Option.getD_some]
    by_cases hz : s.chain_id_board.getD n.toNat 0 = 0
    · rw [hz]
      simp
    · have hA := inAtariAt_eq_allSame s.chain_id_board size n.toNat HB hnlt hz
        (Habs n.toNat hnlt)
        (fun j hj h => Htwin j hj n.toNat hnlt h)
        (Hlib n.toNat hnlt hz)
      have hcast : Int.ofNat n.toNat = n := by
        rw [Int.ofNat_eq_coe]
        exact Int.toNat_of_nonneg h0
      rw [hcast] at hA
      rw [hA]

/-- Claim C1: the legal mask marks a board cell playable iff it is empty,
has an on-board neighbour that is empty / an opponent chain with exactly
one distinct liberty / a mover chain with more than one distinct liberty,
and is not the ko cell; the PASS slot is always true; no occupied cell is
marked legal; the ko cell, when set, is always masked out. Hypotheses: the
board satisfies the go.py chain-id invariants (bounded ids, one sign per
magnitude, every chain has at least one liberty, ko a board cell or -1). -/
theorem C1_legal_mask (g : Game) (s : GameState)
    (HB : s.chain_id_board.length = g.size * g.size)
    (Habs : ∀ j < g.size * g.size,
      (s.chain_id_board.getD j 0).natAbs ≤ g.size * g.size)
    (Htwin : ∀ j < g.size * g.size, ∀ k < g.size * g.size,
      (s.chain_id_board.getD j 0).natAbs = (s.chain_id_board.getD k 0).natAbs →
        s.chain_id_board.getD j 0 = s.chain_id_board.getD k 0)
    (Hlib : ∀ j < g.size * g.size, s.chain_id_board.getD j 0 ≠ 0 →
      chainLibs s.chain_id_board g.size (s.chain_id_board.getD j 0) ≠ [])
    (Hko : s.ko = -1 ∨ (0 ≤ s.ko ∧ s.ko < ((g.size * g.size : Nat) : Int))) :
    (∀ i < g.size * g.size,
      (g.legal_action_mask s).getD i false
        = (specLegalCell s g.size i && !(s.ko == (i : Int))))
    ∧ (g.legal_action_mask s).getD (g.size * g.size) false = true
    ∧ (∀ i < g.size * g.size, s.chain_id_board.getD i 0 ≠ 0 →
        (g.legal_action_mask s).getD i false = false)
    ∧ (s.ko ≠ -1 → (g.legal_action_mask s).getD s.ko.toNat false = false) := by
  have hmask : g.legal_action_mask s
      = (if s.ko == -1 then (List.range (g.size * g.size)).map (legalMaskCell s g.size)
         else bset ((List.range (g.size * g.size)).map (legalMaskCell s g.size)) s.ko false)
        ++ [true] := rfl
  have hMlen : ((List.range (g.size * g.size)).map (legalMaskCell s g.size)).length
      = g.size * g.size := by rw [List.length_map, List.length_range]
  have hlen2 : (if s.ko == -1 then (List.range (g.size * g.size)).map (legalMaskCell s g.size)
      else bset ((List.range (g.size * g.size)).map (legalMaskCell s g.size)) s.ko false).length
      = g.size * g.size := by
    split
    · exact hMlen
    · unfold bset
      rw [List.length_set, hMlen]
  have hpart1 : ∀ i < g.size * g.size,
      (g.legal_action_mask s).getD i false
        = (specLegalCell s g.size i && !(s.ko == (i : Int))) := by
    intro i hi
    rw [hmask, List.getD_append _ _ _ _ (by rw [hlen2]; exact hi)]
    cases hko : (s.ko == -1) with
    | true =>
      have hkov : s.ko = -1 := by simpa using hko
      rw [if_pos (rfl : (true : Bool) = true)]
      rw [getD_range_map _ _ _ hi false,
        legalMaskCell_eq_spec s g.size i HB hi Habs Htwin Hlib]
      have hne : (s.ko == ((i : Nat) : Int)) = false := by
        rw [beq_eq_false_iff_ne, hkov]
        omega
      rw [hne]
      simp
    | false =>
      have hkone : s.ko ≠ -1 := by simpa using hko
      rcases Hko with hk | ⟨hk0, hk1⟩
      · exact absurd hk hkone
      rw [if_neg (by simp : ¬((false : Bool) = true))]
      have hbset : bset ((List.range (g.size * g.size)).map (legalMaskCell s g.size)) s.ko false
          = ((List.range (g.size * g.size)).map (legalMaskCell s g.size)).set s.ko.toNat false := by
        unfold bset
        rw [hMlen, clampIdx_of_nonneg_lt hk0 hk1]
      rw [hbset]
      by_cases hik : i = s.ko.toNat
      · subst hik
        rw [getD_set_self' _ _ _ _ (by rw [hMlen]; omega)]
        have htr : (s.ko == ((s.ko.toNat : Nat) : Int)) = true := by
          rw [beq_iff_eq]
          omega
        rw [htr]
        simp
      · rw [getD_set_ne' _ _ _ _ _ (fun h => hik h.symm)]
        rw [getD_range_map _ _ _ hi false,
          legalMaskCell_eq_spec s g.size i HB hi Habs Htwin Hlib]
        have hne : (s.ko == ((i : Nat) : Int)) = false := by
          rw [beq_eq_false_iff_ne]
          intro h
          exact hik (by omega)
        rw [hne]
        simp
  refine ⟨hpart1, ?_, ?_, ?_⟩
  · rw [hmask, List.getD_append_right _ _ _ _ (by rw [hlen2]), hlen2]
    simp
  · intro i hi hocc
    have hspec : specLegalCell s g.size i = false := by
      simp only [specLegalCell]
      rw [beq_eq_false_iff_ne.mpr hocc]
      simp
    rw [hpart1 i hi, hspec]
    simp
  · intro hkone
    rcases Hko with hk | ⟨hk0, hk1⟩
    · exact absurd hk hkone
    have hlt : s.ko.toNat < g.size * g.size := by omega
    rw [hpart1 _ hlt]
    have htr : (s.ko == ((s.ko.toNat : Nat) : Int)) = true := by
      rw [beq_iff_eq]
      omega
    rw [htr]
    simp

/-- Witness for C1 on the 2x2 board `c1wState` (a single black stone). -/
theorem C1_legal_mask_witness :
    (((mkGame 2 1 8).legal_action_mask c1wState).getD
        ((mkGame 2 1 8).size * (mkGame 2 1 8).size) false = true)
    ∧ (((mkGame 2 1 8).legal_action_mask c1wState).getD 1 false
        = (specLegalCell c1wState 2 1 && !(c1wState.ko == ((1 : Nat) : Int)))) := by
  have h := C1_legal_mask (mkGame 2 1 8) c1wState (by decide) (by decide) (by decide)
    (by decide) (Or.inl (by decide))
  exact ⟨h.2.1, h.1 1 (by decide)⟩

/-! ## Support lemmas for the ko claim -/

theorem countP_congr' {α : Type} (l : List α) (p q : α → Bool)
    (h : ∀ x ∈ l, p x = q x) : l.countP p = l.countP q := by
  induction l with
  | nil => rfl
  | cons a l ih =>
    rw [List.countP_cons, List.countP_cons,
      ih (fun x hx => h x (List.mem_cons.mpr (Or.inr hx))),
      h a (List.mem_cons.mpr (Or.inl rfl))]

theorem countP_or_disjoint (l : List Int) (p q : Int → Bool)
    (hd : ∀ v, p v = true → q v = false) :
    l.countP (fun v => p v || q v) = l.countP p + l.countP q := by
  induction l with
  | nil => rfl
  | cons a l ih =>
    rw [List.countP_cons, List.countP_cons, List.countP_cons, ih]
    cases hp : p a
    · cases hq : q a <;> simp [hp, hq] <;> omega
    · have hq := hd a hp
      simp [hp, hq]
      omega

theorem countP_mem_cons (l : List Int) (c : Int) (C : List Int) :
    l.countP (fun v => decide (v ∈ c :: C))
      = l.countP (fun v => decide (v ∈ C))
        + l.countP (fun v => !(decide (v ∈ C)) && (v == c)) := by
  have hpt : ∀ v ∈ l, (decide (v ∈ c :: C) : Bool)
      = (decide (v ∈ C) || (!(decide (v ∈ C)) && (v == c))) := by
    intro v _
    by_cases hC : v ∈ C
    · simp [hC, List.mem_cons]
    · by_cases hc : v = c
      · simp [hC, hc, List.mem_cons]
      · simp [hC, hc, List.mem_cons]
  rw [countP_congr' l _ _ hpt]
  exact countP_or_disjoint l _ _ (fun v hv => by simp_all)

theorem countP_eq_length_filter_range (l : List Int) (p : Int → Bool) :
    l.countP p = ((List.range l.length).filter (fun j => p (l.getD j 0))).length := by
  induction l with
  | nil => rfl
  | cons a l ih =>
    rw [List.countP_cons, List.length_cons, List.range_succ_eq_map]
    rw [List.filter_cons]
    have hmap : (((List.range l.length).map Nat.succ).filter
        (fun j => p ((a :: l).getD j 0)))
        = ((List.range l.length).filter (fun j => p (l.getD j 0))).map Nat.succ := by
      rw [List.filter_map]
      rfl
    by_cases hp : p a = true
    · have hgd : p ((a :: l).getD 0 0) = true := hp
      rw [if_pos hgd, List.length_cons, hmap, List.length_map, ← ih]
      simp [hp]
    · have hgd : ¬ (p ((a :: l).getD 0 0) = true) := hp
      rw [if_neg hgd, hmap, List.length_map, ← ih]
      simp [hp]

theorem ncget_mergeSet (t : GameState) (xy size : Nat) :
    ncget (mergePhase (_set_stone t xy) xy size) = ncget t := by
  unfold ncget
  rw [mergePhase_cap, mergePhase_color]
  rfl

theorem applyAction_ncget (s : GameState) (xy size : Nat) :
    ncget (_apply_action s xy size)
      = ncget (removalPhase { s with consecutive_pass_count := 0 } xy size) := by
  simp only [_apply_action]
  split
  · exact ncget_mergeSet _ _ _
  · show ncget { mergePhase (_set_stone _ xy) xy size with ko := -1 } = _
    unfold ncget
    rw [show ({ mergePhase (_set_stone (removalPhase { s with consecutive_pass_count := 0 } xy size) xy) xy size with ko := -1 } : GameState).num_captured_stones
        = (mergePhase (_set_stone (removalPhase { s with consecutive_pass_count := 0 } xy size) xy) xy size).num_captured_stones from rfl]
    rw [show ({ mergePhase (_set_stone (removalPhase { s with consecutive_pass_count := 0 } xy size) xy) xy size with ko := -1 } : GameState).color
        = (mergePhase (_set_stone (removalPhase { s with consecutive_pass_count := 0 } xy size) xy) xy size).color from rfl]
    rw [mergePhase_cap, mergePhase_color]
    rfl

theorem applyAction_ko_char (s : GameState) (xy size : Nat) :
    (_apply_action s xy size).ko
      = (if ncget (removalPhase { s with consecutive_pass_count := 0 } xy size)
            - ncget s = 1
         then (removalPhase { s with consecutive_pass_count := 0 } xy size).ko
         else -1) := by
  simp only [_apply_action]
  have hnc : ncget { s with consecutive_pass_count := 0 } = ncget s := rfl
  have hmc : ncget (mergePhase (_set_stone (removalPhase { s with consecutive_pass_count := 0 } xy size) xy) xy size)
      = ncget (removalPhase { s with consecutive_pass_count := 0 } xy size) :=
    ncget_mergeSet _ _ _
  split
  · next hcond =>
    rw [mergePhase_ko]
    have hset : (_set_stone (removalPhase { s with consecutive_pass_count := 0 } xy size) xy).ko
        = (removalPhase { s with consecutive_pass_count := 0 } xy size).ko := rfl
    rw [hset, if_pos (by rw [hnc, hmc] at hcond; exact beq_iff_eq.mp hcond)]
  · next hcond =>
    rw [if_neg (by rw [hnc, hmc] at hcond; intro h; exact hcond (beq_iff_eq.mpr h))]

theorem removeStep_inv (s0 : GameState) (xy size : Nat) (kmo : Bool)
    (HB : s0.chain_id_board.length = size * size)
    (HC : s0.color < 2)
    (i : Nat) (t : GameState) (C : List Int)
    (h : LoopInv s0 xy size kmo t C) :
    ∃ C', LoopInv s0 xy size kmo (removeStep s0 xy size kmo t i) C' := by
  cases hki : isKilled s0 xy size i with
  | false =>
    refine ⟨C, ?_⟩
    unfold removeStep
    rw [hki, if_neg Bool.false_ne_true]
    exact h
  | true =>
    have hki' := hki
    obtain ⟨h0, hbd, hlen, hcol, hnc, hkoF, hko0, hko1⟩ := h
    have ht1 : removeStep s0 xy size kmo t i
        = _remove_stones t (chainIdAt s0 xy size i) (adjOf xy size i) kmo := by
      unfold removeStep
      rw [hki, if_pos rfl]
    simp only [isKilled, Bool.and_eq_true] at hki
    obtain ⟨⟨⟨hA, hB⟩, hAt⟩, hSL⟩ := hki
    have hAne : adjOf xy size i ≠ -1 := bne_iff_ne.mp hA
    have hBB : chainIdAt s0 xy size i * _opponent_color s0 > 0 := of_decide_eq_true hB
    have hcid0 : chainIdAt s0 xy size i ≠ 0 := by
      intro hh
      rw [hh, zero_mul] at hBB
      exact lt_irrefl 0 hBB
    have hlen4 : (_neighbour xy size).length = 4 := rfl
    have hciB : 0 ≤ adjOf xy size i ∧ adjOf xy size i < ((size * size : Nat) : Int) := by
      rcases Nat.lt_or_ge i 4 with hi4 | hi4
      · have hmem : adjOf xy size i ∈ _neighbour xy size := by
          unfold adjOf
          rw [List.getD_eq_getElem _ _ (by rw [hlen4]; exact hi4)]
          exact List.getElem_mem _
        rcases neighbour_cases xy size _ hmem with hm1 | hm2
        · exact absurd hm1 hAne
        · exact hm2
      · exfalso
        apply hAne
        unfold adjOf
        exact List.getD_eq_default _ _ (by rw [hlen4]; exact hi4)
    have hcidat : s0.chain_id_board.getD (adjOf xy size i).toNat 0 = chainIdAt s0 xy size i := by
      unfold chainIdAt
      rw [aget_eq_getD _ _ hciB.1 (by rw [HB]; exact hciB.2)]
    have hcitoNat : (adjOf xy size i).toNat < s0.chain_id_board.length := by
      rw [HB]
      omega
    have hmemcid : chainIdAt s0 xy size i ∈ s0.chain_id_board := by
      rw [← hcidat, List.getD_eq_getElem _ _ hcitoNat]
      exact List.getElem_mem _
    have hnum : t.chain_id_board.countP (fun v => v == chainIdAt s0 xy size i)
        = s0.chain_id_board.countP
            (fun v => !(decide (v ∈ C)) && (v == chainIdAt s0 xy size i)) := by
      rw [hbd, List.countP_map]
      apply countP_congr'
      intro v hv
      show ((if v ∈ C then 0 else v) == chainIdAt s0 xy size i) = _
      by_cases hvC : v ∈ C
      · rw [if_pos hvC, decide_eq_true hvC, Bool.not_true, Bool.false_and,
          beq_eq_false_iff_ne]
        exact fun hh => hcid0 hh.symm
      · rw [if_neg hvC, decide_eq_false hvC, Bool.not_false, Bool.true_and]
    have hko_char : (_remove_stones t (chainIdAt s0 xy size i) (adjOf xy size i) kmo).ko
        = (if kmo && ((t.chain_id_board.countP (fun v => v == chainIdAt s0 xy size i)) == 1)
           then adjOf xy size i else t.ko) := rfl
    have hcnt_char : s0.chain_id_board.countP
          (fun v => decide (v ∈ chainIdAt s0 xy size i :: C))
        = s0.chain_id_board.countP (fun v => decide (v ∈ C))
          + s0.chain_id_board.countP
              (fun v => !(decide (v ∈ C)) && (v == chainIdAt s0 xy size i)) :=
      countP_mem_cons _ _ _
    refine ⟨chainIdAt s0 xy size i :: C, ?_, ?_, ?_, ?_, ?_, ?_, ?_, ?_⟩
    · intro c hc
      rcases List.mem_cons.mp hc with rfl | hc'
      · exact hcid0
      · exact h0 c hc'
    · rw [ht1]
      show t.chain_id_board.map (fun v => if v == chainIdAt s0 xy size i then 0 else v) = _
      rw [hbd, List.map_map]
      apply List.map_congr_left
      intro v hv
      show (if (if v ∈ C then 0 else v) == chainIdAt s0 xy size i then 0
            else (if v ∈ C then 0 else v))
          = (if v ∈ chainIdAt s0 xy size i :: C then 0 else v)
      by_cases hvC : v ∈ C
      · rw [if_pos hvC, if_pos (List.mem_cons.mpr (Or.inr hvC))]
        by_cases hz : ((0 : Int) == chainIdAt s0 xy size i) = true
        · rw [if_pos hz]
        · rw [if_neg hz]
      · rw [if_neg hvC]
        by_cases hvc : v = chainIdAt s0 xy size i
        · rw [if_pos (by rw [hvc]; exact beq_self_eq_true _),
            if_pos (List.mem_cons.mpr (Or.inl hvc))]
        · rw [if_neg (by rw [beq_iff_eq]; exact hvc),
            if_neg (by rw [List.mem_cons]; push_neg; exact ⟨hvc, hvC⟩)]
    · rw [ht1]
      show (capAdd t.num_captured_stones t.color _).length = 2
      unfold capAdd
      rw [List.length_set]
      exact hlen
    · rw [ht1]
      show t.color = s0.color
      exact hcol
    · rw [ht1]
      have hstep : ncget (_remove_stones t (chainIdAt s0 xy size i) (adjOf xy size i) kmo)
          = ncget t + (t.chain_id_board.countP (fun v => v == chainIdAt s0 xy size i) : Int) := by
        unfold ncget _remove_stones capAdd
        simp only []
        rw [List.length_set]
        have hj : min t.color (t.num_captured_stones.length - 1) = s0.color := by
          rw [hlen, hcol]
          omega
        rw [hj]
        rw [getD_set_self' _ _ _ _ (by rw [hlen]; omega)]
      rw [hstep, hnum, hnc, hcnt_char]
      push_cast
      ring
    · intro hk
      rw [ht1, hko_char, hk]
      simp only [Bool.false_and, if_neg Bool.false_ne_true]
      exact hkoF hk
    · intro hk hzero
      rw [hcnt_char] at hzero
      have hk2 : s0.chain_id_board.countP
          (fun v => !(decide (v ∈ C)) && (v == chainIdAt s0 xy size i)) = 0 := by omega
      have hk1 : s0.chain_id_board.countP (fun v => decide (v ∈ C)) = 0 := by omega
      rw [ht1, hko_char, hnum, hk2]
      simp only [Nat.reduceBeqDiff, Bool.and_false, if_neg Bool.false_ne_true]
      exact hko0 hk hk1
    · intro hk hone
      rw [hcnt_char] at hone
      rcases (by omega : s0.chain_id_board.countP
            (fun v => !(decide (v ∈ C)) && (v == chainIdAt s0 xy size i)) = 0
          ∨ s0.chain_id_board.countP
            (fun v => !(decide (v ∈ C)) && (v == chainIdAt s0 xy size i)) = 1) with hk2 | hk2
      · have hk1 : s0.chain_id_board.countP (fun v => decide (v ∈ C)) = 1 := by omega
        obtain ⟨j, hj1, hj2, hj3, hj4⟩ := hko1 hk hk1
        refine ⟨j, hj1, List.mem_cons.mpr (Or.inr hj2), hj3, ?_⟩
        rw [ht1, hko_char, hnum, hk2]
        simp only [Nat.reduceBeqDiff, Bool.and_false, if_neg Bool.false_ne_true]
        exact hj4
      · have hk1 : s0.chain_id_board.countP (fun v => decide (v ∈ C)) = 0 := by omega
        have hallout : ∀ v ∈ s0.chain_id_board, ¬ (decide (v ∈ C) = true) :=
          List.countP_eq_zero.mp hk1
        have hcnt1 : s0.chain_id_board.countP
            (fun v => v == chainIdAt s0 xy size i) = 1 := by
          rw [← hk2]
          apply countP_congr'
          intro v hv
          rw [Bool.eq_false_iff.mpr (hallout v hv)]
          simp
        refine ⟨i, hki', List.mem_cons.mpr (Or.inl rfl), hcnt1, ?_⟩
        rw [ht1, hko_char, hnum, hk2, hk]
        simp

theorem removeLoop_inv (s0 : GameState) (xy size : Nat) (kmo : Bool)
    (HB : s0.chain_id_board.length = size * size)
    (HC : s0.color < 2) (ds : List Nat) :
    ∀ (t : GameState) (C : List Int), LoopInv s0 xy size kmo t C →
      ∃ C', LoopInv s0 xy size kmo (ds.foldl (removeStep s0 xy size kmo) t) C' := by
  induction ds with
  | nil => exact fun t C h => ⟨C, h⟩
  | cons i ds ih =>
    intro t C h
    rw [List.foldl_cons]
    obtain ⟨C1, h1⟩ := removeStep_inv s0 xy size kmo HB HC i t C h
    exact ih _ C1 h1

theorem removalPhase_inv (s0 : GameState) (xy size : Nat)
    (HB : s0.chain_id_board.length = size * size)
    (HC : s0.color < 2) (HL : s0.num_captured_stones.length = 2)
    (hko : s0.ko = -1) :
    ∃ C', LoopInv s0 xy size (_ko_may_occur s0 xy size) (removalPhase s0 xy size) C' := by
  unfold removalPhase
  apply removeLoop_inv s0 xy size _ HB HC (List.range 4) s0 []
  have hcnt0 : s0.chain_id_board.countP (fun v => decide (v ∈ ([] : List Int))) = 0 :=
    List.countP_eq_zero.mpr (fun a _ => by simp)
  refine ⟨by simp, ?_, HL, rfl, ?_, fun _ => hko, fun _ _ => hko, ?_⟩
  · have hid : s0.chain_id_board.map (fun v => if v ∈ ([] : List Int) then 0 else v)
        = s0.chain_id_board.map id := List.map_congr_left (fun v _ => by simp)
    rw [hid, List.map_id]
  · rw [hcnt0]
    simp
  · intro _ h1
    rw [hcnt0] at h1
    exact absurd h1 zero_ne_one

theorem isKilled_bounds (s0 : GameState) (xy size i : Nat)
    (hk : isKilled s0 xy size i = true) :
    adjOf xy size i ≠ -1 ∧ 0 ≤ adjOf xy size i
      ∧ adjOf xy size i < ((size * size : Nat) : Int) := by
  simp only [isKilled, Bool.and_eq_true] at hk
  obtain ⟨⟨⟨hA, _⟩, _⟩, _⟩ := hk
  have hAne : adjOf xy size i ≠ -1 := bne_iff_ne.mp hA
  refine ⟨hAne, ?_⟩
  have hlen4 : (_neighbour xy size).length = 4 := rfl
  rcases Nat.lt_or_ge i 4 with hi4 | hi4
  · have hmem : adjOf xy size i ∈ _neighbour xy size := by
      unfold adjOf
      rw [List.getD_eq_getElem _ _ (by rw [hlen4]; exact hi4)]
      exact List.getElem_mem _
    rcases neighbour_cases xy size _ hmem with hm1 | hm2
    · exact absurd hm1 hAne
    · exact hm2
  · exfalso
    apply hAne
    unfold adjOf
    exact List.getD_eq_default _ _ (by rw [hlen4]; exact hi4)

theorem isKilled_cid (s0 : GameState) (xy size i : Nat)
    (HB : s0.chain_id_board.length = size * size)
    (hk : isKilled s0 xy size i = true) :
    s0.chain_id_board.getD (adjOf xy size i).toNat 0 = chainIdAt s0 xy size i
      ∧ chainIdAt s0 xy size i ≠ 0 := by
  obtain ⟨hAne, hge0, hlt⟩ := isKilled_bounds s0 xy size i hk
  simp only [isKilled, Bool.and_eq_true] at hk
  obtain ⟨⟨⟨_, hB⟩, _⟩, _⟩ := hk
  have hBB : chainIdAt s0 xy size i * _opponent_color s0 > 0 := of_decide_eq_true hB
  constructor
  · unfold chainIdAt
    rw [aget_eq_getD _ _ hge0 (by rw [HB]; exact hlt)]
  · intro hh
    rw [hh, zero_mul] at hBB
    exact lt_irrefl 0 hBB

/-- Claim C2: after a step, the ko coordinate is the captured cell iff the
action was a play capturing exactly one stone in total whose played cell
had every orthogonal neighbour off-board or opponent-occupied
(`_ko_may_occur`); in every other case — any pass, zero captures, or more
than one capture — the successor ko is -1. -/
theorem C2_ko_iff (g : Game) (s : GameState) (a : Nat)
    (HB : s.chain_id_board.length = g.size * g.size)
    (HC : s.color < 2)
    (HL : s.num_captured_stones.length = 2) :
    (g.size * g.size ≤ a → (g.step s a).ko = -1)
    ∧ (a < g.size * g.size →
        ((capturedDelta { s with ko := -1 } a g.size = 1
            ∧ _ko_may_occur s a g.size = true) →
          ∃ c : Nat, (g.step s a).ko = (c : Int)
            ∧ capturedCells { s with ko := -1 } a g.size = [c])
        ∧ (¬ (capturedDelta { s with ko := -1 } a g.size = 1
              ∧ _ko_may_occur s a g.size = true) →
          (g.step s a).ko = -1)) := by
  constructor
  · intro hge
    have hlt : ¬ (a < g.size * g.size) := by omega
    simp only [Game.step, if_neg hlt, _apply_pass]
  · intro Ha
    have hstep_ko : (g.step s a).ko = (_apply_action { s with ko := -1 } a g.size).ko := by
      simp only [Game.step, if_pos Ha]
    obtain ⟨C', h0, hbd, hlenC, hcolC, hncC, hkoF, hko0, hko1⟩ :=
      removalPhase_inv { { s with ko := -1 } with consecutive_pass_count := 0 }
        a g.size HB HC HL rfl
    have hdelta : capturedDelta { s with ko := -1 } a g.size
        = ((s.chain_id_board.countP (fun v => decide (v ∈ C')) : Nat) : Int) := by
      unfold capturedDelta
      rw [applyAction_ncget, hncC]
      have hr : ncget { { s with ko := -1 } with consecutive_pass_count := 0 }
          = ncget { s with ko := (-1 : Int) } := rfl
      rw [hr]
      ring_nf
    constructor
    · rintro ⟨hdel1, hkmo⟩
      have hcnt1 : s.chain_id_board.countP (fun v => decide (v ∈ C')) = 1 := by
        rw [hdelta] at hdel1
        exact_mod_cast hdel1
      obtain ⟨i, hkill, hmemc, hcntcid, hkoeq⟩ := hko1 hkmo hcnt1
      obtain ⟨hAne, hge0, hltnn⟩ := isKilled_bounds _ a g.size i hkill
      obtain ⟨hcidat, hcid0⟩ := isKilled_cid _ a g.size i HB hkill
      have hcond : ncget (removalPhase
            { { s with ko := -1 } with consecutive_pass_count := 0 } a g.size)
          - ncget { s with ko := (-1 : Int) } = 1 := by
        have h2 := hdel1
        unfold capturedDelta at h2
        rw [applyAction_ncget] at h2
        exact h2
      refine ⟨(adjOf a g.size i).toNat, ?_, ?_⟩
      · rw [hstep_ko, applyAction_ko_char, if_pos hcond, hkoeq]
        exact (Int.toNat_of_nonneg hge0).symm
      · have hproj : ({ { s with ko := -1 } with consecutive_pass_count := 0 }
            : GameState).chain_id_board = s.chain_id_board := rfl
        have hproj2 : ({ s with ko := -1 } : GameState).chain_id_board
            = s.chain_id_board := rfl
        have hbd' : (removalPhase
              { { s with ko := -1 } with consecutive_pass_count := 0 }
              a g.size).chain_id_board
            = s.chain_id_board.map (fun v => if v ∈ C' then 0 else v) := by
          rw [hbd, hproj]
        have hcc : capturedCells { s with ko := -1 } a g.size
            = (List.range (g.size * g.size)).filter
                (fun j => decide (s.chain_id_board.getD j 0 ∈ C')) := by
          unfold capturedCells
          apply List.filter_congr
          intro j hj
          rw [hproj2, hbd']
          have hf0 : (if (0 : Int) ∈ C' then (0 : Int) else (0 : Int)) = 0 := ite_self 0
          have hgd : (s.chain_id_board.map (fun v => if v ∈ C' then 0 else v)).getD j 0
              = (if s.chain_id_board.getD j 0 ∈ C' then 0
                 else s.chain_id_board.getD j 0) :=
            getD_map_zero (fun v => if v ∈ C' then 0 else v) hf0 s.chain_id_board j
          rw [hgd]
          by_cases hvC : s.chain_id_board.getD j 0 ∈ C'
          · have hnz : s.chain_id_board.getD j 0 ≠ 0 := h0 _ hvC
            rw [if_pos hvC, decide_eq_true hvC,
              show (s.chain_id_board.getD j 0 != 0) = true from bne_iff_ne.mpr hnz]
            rfl
          · by_cases hz : s.chain_id_board.getD j 0 = 0
            · rw [if_neg hvC, decide_eq_false hvC, hz]
              rfl
            · rw [if_neg hvC, decide_eq_false hvC,
                show (s.chain_id_board.getD j 0 == 0) = false from beq_eq_false_iff_ne.mpr hz,
                Bool.and_false]
        have hlen1 : (capturedCells { s with ko := -1 } a g.size).length = 1 := by
          rw [hcc]
          have hcr := countP_eq_length_filter_range s.chain_id_board
            (fun v => decide (v ∈ C'))
          rw [HB] at hcr
          rw [← hcr]
          exact hcnt1
        have hmem : (adjOf a g.size i).toNat ∈ capturedCells { s with ko := -1 } a g.size := by
          rw [hcc]
          apply List.mem_filter.mpr
          refine ⟨List.mem_range.mpr (by omega), ?_⟩
          have hcidat' : s.chain_id_board.getD (adjOf a g.size i).toNat 0
              = chainIdAt { { s with ko := -1 } with consecutive_pass_count := 0 }
                  a g.size i := hcidat
          rw [hcidat']
          exact decide_eq_true hmemc
        obtain ⟨b, hb⟩ := List.length_eq_one.mp hlen1
        rw [hb] at hmem ⊢
        have : (adjOf a g.size i).toNat = b := List.mem_singleton.mp hmem
        rw [this]
    · intro hneg
      rw [hstep_ko, applyAction_ko_char]
      by_cases hdel1 : capturedDelta { s with ko := -1 } a g.size = 1
      · have hkmo : _ko_may_occur s a g.size = false := by
          rcases Bool.eq_false_or_eq_true (_ko_may_occur s a g.size) with ht | hf
          · exact absurd ⟨hdel1, ht⟩ hneg
          · exact hf
        have hcond : ncget (removalPhase
              { { s with ko := -1 } with consecutive_pass_count := 0 } a g.size)
            - ncget { s with ko := (-1 : Int) } = 1 := by
          have h2 := hdel1
          unfold capturedDelta at h2
          rw [applyAction_ncget] at h2
          exact h2
        rw [if_pos hcond]
        exact hkoF hkmo
      · have hcond : ¬ (ncget (removalPhase
              { { s with ko := -1 } with consecutive_pass_count := 0 } a g.size)
            - ncget { s with ko := (-1 : Int) } = 1) := by
          intro hh
          apply hdel1
          unfold capturedDelta
          rw [applyAction_ncget]
          exact hh
        rw [if_neg hcond]

/-- Witness for C2: on the 3x3 ko position `c2wState`, black playing cell 1
captures exactly the white stone on cell 0 under `_ko_may_occur`, and the
successor ko is exactly that captured cell. -/
theorem C2_ko_iff_witness :
    (capturedDelta { c2wState with ko := -1 } 1 3 = 1
      ∧ _ko_may_occur c2wState 1 3 = true)
    ∧ (∃ c : Nat, ((mkGame 3 (15/2) 8).step c2wState 1).ko = (c : Int)
        ∧ capturedCells { c2wState with ko := -1 } 1 3 = [c]) := by
  have h := (C2_ko_iff (mkGame 3 (15/2) 8) c2wState 1 (by decide) (by decide) (by decide)).2
    (by decide)
  exact ⟨⟨by decide, by decide⟩, h.1 ⟨by decide, by decide⟩⟩
